import Mathlib

set_option maxHeartbeats 1600000

namespace BrowserMagic

/-- A step into the tree: `child i` indexes into a node's `childNodes`
list; `intoShadow` enters the attached shadow root of an element host. -/
inductive Step where
  | child (i : Nat)
  | intoShadow
  deriving DecidableEq, Repr

/-- An address of a node, as the list of steps from the document down. -/
abbrev Addr := List Step

/-- Geometry of `getBoundingClientRect()`: viewport-relative pixels. -/
structure Rect where
  x : Int
  y : Int
  width : Int
  height : Int
  deriving DecidableEq, Repr

/-- Lowercasing, mirroring JS `toLowerCase()` on the modelled tag/type
strings (written on the character list so that it evaluates by kernel
reduction). -/
def lowerStr (s : String) : String := String.mk (s.data.map Char.toLower)

/-- Uppercasing, mirroring JS `toUpperCase()`. -/
def upperStr (s : String) : String := String.mk (s.data.map Char.toUpper)

/-- Whitespace trimming of both ends, mirroring JS `trim()`. -/
def trimChars (cs : List Char) : List Char :=
  (((cs.dropWhile Char.isWhitespace).reverse).dropWhile Char.isWhitespace).reverse

/-- String form of `trimChars`. -/
def jsTrim (s : String) : String := String.mk (trimChars s.data)

/-- Per-element data visible to the library: the `tagName` (canonical DOM
casing, e.g. `"BUTTON"` for HTML elements), the computed style fields the
code inspects (`display`, `visibility`, `opacity` — the code tests
`parseFloat(st.opacity) === 0` resp. `style.opacity === '0'`, modelled as
an integer compared with 0), a flag `styleError` meaning that
`getComputedStyle` / `getBoundingClientRect` throw for this node, the
bounding rect, and the element properties/attributes that
`extractElementAttributes` and `getElementRole` read. -/
structure ElemData where
  tag : String
  display : String
  visibility : String
  opacity : Int
  styleError : Bool
  rect : Rect
  idAttr : String
  className : String
  attrs : List (String × String)
  propHref : String
  propTarget : String
  propType : String
  propPlaceholder : String
  propValue : String
  propAlt : String
  propSrc : String
  propHtmlFor : String
  propChecked : Option Bool
  propMultiple : Bool
  deriving Repr

/-- A DOM node: a text node with its `textContent`, or an element with its
data, its attached shadow root (`none` when `el.shadowRoot` is null, else
the shadow root's `childNodes`), and its `childNodes`. -/
inductive DNode where
  | text (s : String)
  | elem (d : ElemData) (shadow : Option (List DNode)) (children : List DNode)

/-- The document: its `childNodes`.  (A reachable HTML document has the
single element child `document.documentElement`.) -/
structure Doc where
  children : List DNode

/-- Upward context of an element, as `getXPath`'s walk observes it: at each
level the parent's `childNodes` (each entry `some tagName` for an element
sibling, `none` for a non-element sibling) and the element's index therein.
The chain terminates at the document (`inDoc`), at a non-element container
such as a shadow root or document fragment (`inFrag`), or at a null
`parentNode` (`nullParent` — dereferencing `parentNode.childNodes` there
throws a TypeError). -/
inductive UpCtx where
  | nullParent
  | inDoc (sibs : List (Option String)) (i : Nat)
  | inFrag (sibs : List (Option String)) (i : Nat)
  | inElem (sibs : List (Option String)) (i : Nat) (ptag : String) (pctx : UpCtx)
  deriving Repr

/-- Decimal digit character, as JS number-to-string produces. -/
def digCh (n : Nat) : Char := Char.ofNat (48 + n)

/-- Decimal printing with explicit fuel (structural, so that it evaluates
by kernel reduction); `fuel > n` suffices. -/
def natToCharsAux : Nat → Nat → List Char
  | 0, _ => []
  | fuel + 1, n =>
    if n < 10 then [digCh n]
    else natToCharsAux fuel (n / 10) ++ [digCh (n % 10)]

/-- Decimal printing of a natural number, mirroring JS template-string
interpolation of an integer. -/
def natToChars (n : Nat) : List Char := natToCharsAux (n + 1) n

/-- One segment of the synthesized locator for an element with tag `tag`
sitting at index `i` of the parent's `childNodes` `sibs`: the bare
lowercase tag when it is the only same-`tagName` element sibling, else
`tag[k]` with `k` the 1-based rank among same-`tagName` element siblings
(the source counts `previousElementSibling`s with equal `tagName`). -/
def segOf (tag : String) (sibs : List (Option String)) (i : Nat) : String :=
  if (sibs.filter (fun t => t = some tag)).length = 1 then
    lowerStr tag
  else
    lowerStr tag ++ "[" ++
      String.mk (natToChars (1 + ((sibs.take i).filter (fun t => t = some tag)).length)) ++ "]"

/-- The while-loop of `getXPath`, walking the parent chain and prepending
one segment per element level.  Returns `none` when the walk reaches an
element whose `parentNode` is null (the source then throws a TypeError
reading `childNodes` of null); otherwise returns the segments from the
highest reachable element down to the input element. -/
def xwalk (tag : String) : UpCtx → Option (List String)
  | .nullParent => none
  | .inDoc sibs i => some [segOf tag sibs i]
  | .inFrag sibs i => some [segOf tag sibs i]
  | .inElem sibs i ptag pctx => (xwalk ptag pctx).map (fun segs => segs ++ [segOf tag sibs i])

/-- Join of path segments with `/`, mirroring `path.join('/')`. -/
def joinSlash : List String → String
  | [] => ""
  | [s] => s
  | s :: ss => s ++ "/" ++ joinSlash ss

/-- The possible inputs of `getXPath`, keyed by the identity checks the
source performs: null/undefined, the document itself,
`document.documentElement`, `document.body`, a non-element node (the walk
loop never runs, yielding `"/"`), or a general node given by its `tagName`
and upward context. -/
inductive GXInput where
  | jsNull
  | theDoc
  | theDocElement
  | theBody
  | nonElement
  | node (tag : String) (ctx : UpCtx)
  deriving Repr

/-- Embedding of `getXPath` (src/browsermagic-dom.js:58).  `none` models
the TypeError thrown when the sibling computation dereferences a null
`parentNode` (only possible for detached nodes). -/
def getXPath : GXInput → Option String
  | .jsNull => some ""
  | .theDoc => some ""
  | .theDocElement => some "/html"
  | .theBody => some "/html/body"
  | .nonElement => some "/"
  | .node tag ctx => (xwalk tag ctx).map (fun segs => "/" ++ joinSlash segs)

/-- A cursor into the document: the document itself, a shadow-root
container, an element (together with the upward context its position
determines), or a text node. -/
inductive Cur where
  | curDoc (children : List DNode)
  | curFrag (children : List DNode)
  | curEl (ctx : UpCtx) (d : ElemData) (shadow : Option (List DNode)) (children : List DNode)
  | curText (s : String)

/-- The `childNodes` of the node a cursor points at. -/
def curChildren : Cur → List DNode
  | .curDoc ns => ns
  | .curFrag ns => ns
  | .curEl _ _ _ ns => ns
  | .curText _ => []

/-- Sibling information of a `childNodes` list, as `getXPath`'s filter
sees it: `some tagName` for element nodes, `none` otherwise. -/
def sibInfos (ns : List DNode) : List (Option String) :=
  ns.map fun n => match n with
    | .elem d _ _ => some d.tag
    | .text _ => none

/-- Upward context of the `i`-th child of the node a cursor points at. -/
def childCtxOf : Cur → Nat → UpCtx
  | .curDoc ns, i => .inDoc (sibInfos ns) i
  | .curFrag ns, i => .inFrag (sibInfos ns) i
  | .curEl ctx d _ ns, i => .inElem (sibInfos ns) i d.tag ctx
  | .curText _, i => .inFrag [] i

/-- One navigation step of a cursor. -/
def stepCur : Cur → Step → Option Cur
  | c, .child i =>
    match (curChildren c).get? i with
    | some (.elem d sh ch) => some (.curEl (childCtxOf c i) d sh ch)
    | some (.text s) => some (.curText s)
    | none => none
  | .curEl _ _ (some shl) _, .intoShadow => some (.curFrag shl)
  | _, .intoShadow => none

/-- Cursor at an address of a document. -/
def curAt (doc : Doc) (a : Addr) : Option Cur :=
  a.foldlM stepCur (Cur.curDoc doc.children)

/-- Whether a node is an element. -/
def isElemNode : DNode → Bool
  | .elem _ _ _ => true
  | .text _ => false

/-- Address of `document.documentElement`: the first element child of the
document. -/
def docElemAddr (doc : Doc) : Option Addr :=
  (doc.children.findIdx? isElemNode).map (fun i => [Step.child i])

/-- Whether a node is an element with the given `tagName`. -/
def isElemTag (t : String) : DNode → Bool
  | .elem d _ _ => d.tag = t
  | .text _ => false

/-- Address of `document.body`: the first `BODY` element child of the
document element. -/
def bodyAddrOf (doc : Doc) : Option Addr :=
  match doc.children.findIdx? isElemNode with
  | some i =>
    match doc.children.get? i with
    | some (.elem _ _ ch) =>
      (ch.findIdx? (isElemTag "BODY")).map (fun j => [Step.child i, Step.child j])
    | _ => none
  | none => none

/-- Classify the node at an address for `getXPath`'s identity checks. -/
def gxInputOf (doc : Doc) (a : Addr) : GXInput :=
  if a = [] then .theDoc
  else if docElemAddr doc = some a then .theDocElement
  else if bodyAddrOf doc = some a then .theBody
  else
    match curAt doc a with
    | some (.curEl ctx d _ _) => .node d.tag ctx
    | _ => .nonElement

/-- `getXPath` applied to the live node at address `a` of `doc`. -/
def getXPathAt (doc : Doc) (a : Addr) : Option String :=
  getXPath (gxInputOf doc a)

/-- A parsed locator segment: a name test plus an optional 1-based
positional predicate. -/
structure Seg where
  tag : String
  idx : Option Nat
  deriving DecidableEq, Repr

/-- Decimal parsing of a digit string. -/
def charsToNat (cs : List Char) : Nat :=
  cs.foldl (fun n c => n * 10 + (c.toNat - 48)) 0

/-- Split a character list on `/`. -/
def splitOnSlash : List Char → List (List Char)
  | [] => [[]]
  | c :: rest =>
    if c = '/' then [] :: splitOnSlash rest
    else
      match splitOnSlash rest with
      | g :: gs => (c :: g) :: gs
      | [] => [[c]]

/-- Parse one locator segment: a nonempty name, optionally followed by a
bracketed nonempty digit string. -/
def parseSeg (cs : List Char) : Option Seg :=
  let name := cs.takeWhile (fun c => c ≠ '[')
  let rest := cs.dropWhile (fun c => c ≠ '[')
  if name = [] then none
  else
    match rest with
    | [] => some ⟨String.mk name, none⟩
    | _ :: r2 =>
      let ds := r2.takeWhile Char.isDigit
      let r3 := r2.dropWhile Char.isDigit
      if ds = [] then none
      else if r3 = [']'] then some ⟨String.mk name, some (charsToNat ds)⟩
      else none

/-- Modelled from the spec: the host environment's standard path-query
facility (`document.evaluate`, which is not part of this repository),
restricted to the absolute child-axis locator fragment the synthesizer
emits — `/name/name[k]/...` — with any other string treated as an
evaluation failure.  Parse an XPath string into segments. -/
def parseXPath (s : String) : Option (List Seg) :=
  match s.toList with
  | [] => none
  | c :: rest =>
    if c = '/' then
      if rest = [] then some []
      else (splitOnSlash rest).mapM parseSeg
    else none

/-- Indices (into a `childNodes` list, starting at offset `k`) of the
element children whose lowercase name — the `localName` an XPath name test
is compared against — equals the query. -/
def childMatches (tagq : String) : List DNode → Nat → List Nat
  | [], _ => []
  | .elem d _ _ :: ns, k =>
    (if lowerStr d.tag = tagq then [k] else []) ++ childMatches tagq ns (k + 1)
  | .text _ :: ns, k => childMatches tagq ns (k + 1)

/-- The `childNodes` of the light-tree node at an address (shadow roots
are invisible to `document.evaluate`). -/
def childrenAtLight (doc : Doc) (a : Addr) : List DNode :=
  match curAt doc a with
  | some c => curChildren c
  | none => []

/-- Apply one location step to one context node: all matching element
children in document order, filtered by the positional predicate if
present (XPath positions are 1-based, per parent context). -/
def applySeg (doc : Doc) (sg : Seg) (a : Addr) : List Addr :=
  let ms := (childMatches sg.tag (childrenAtLight doc a) 0).map
    (fun k => a ++ [Step.child k])
  match sg.idx with
  | none => ms
  | some 0 => []
  | some (j + 1) => (ms.get? j).toList

/-- Evaluate a parsed absolute path against the document: the node-set
semantics of a child-axis location path, starting from the document node. -/
def evalSegs (doc : Doc) (segs : List Seg) : List Addr :=
  segs.foldl (fun cur sg => cur.flatMap (applySeg doc sg)) [[]]

/-- Embedding of `findElementByXPath` (src/browsermagic-dom.js:474):
evaluate the string against the document requesting the first ordered
match; any evaluation error yields null (`none`). -/
def findElementByXPath (doc : Doc) (s : String) : Option Addr :=
  (parseXPath s).bind (fun segs => (evalSegs doc segs).head?)

/-- A `meta` tag's `name`, `property` and `content` attributes (`none`
when absent). -/
structure MetaTag where
  nameAttr : Option String
  property : Option String
  content : Option String

/-- Browser globals read by the library: `window.innerWidth/innerHeight`,
`document.documentElement.clientWidth/clientHeight`, scroll offsets,
`window.location.href`, `document.title` and the document's meta tags. -/
structure Env where
  innerWidth : Int
  innerHeight : Int
  clientWidth : Int
  clientHeight : Int
  scrollX : Int
  scrollY : Int
  pageXOffset : Int
  pageYOffset : Int
  url : String
  title : String
  metas : List MetaTag

/-- JS `a || b` on numbers: `0` is falsy. -/
def jsOrI (a b : Int) : Int := if a = 0 then b else a

/-- Embedding of `inViewport` (src/browsermagic-dom.js:141). -/
def inViewport (env : Env) (r : Rect) : Bool :=
  r.x + r.width > 0 && r.y + r.height > 0 &&
  r.x < jsOrI env.innerWidth env.clientWidth &&
  r.y < jsOrI env.innerHeight env.clientHeight

/-- The basic style-visibility test shared by `scan` and `getVisibleText`:
`display:none`, `visibility:hidden`, or zero opacity. -/
def styleHidden (d : ElemData) : Bool :=
  d.display == "none" || d.visibility == "hidden" || d.opacity == 0

/-- Embedding of `isElementVisible` (src/browsermagic-dom.js:155); the
argument is `none` for a null/undefined input, and `styleError` models the
style/geometry queries throwing (the catch branch fails open to `true`). -/
def isElementVisible : Option ElemData → Bool
  | none => false
  | some d =>
    if d.styleError then true
    else if d.display == "none" || d.visibility == "hidden" || d.opacity == 0 then false
    else if d.rect.width == 0 || d.rect.height == 0 then false
    else true

mutual

/-- Embedding of `getVisibleText` (src/browsermagic-dom.js:117). -/
def getVisibleText : DNode → String
  | .text s => s
  | .elem d _ ch =>
    if d.styleError then ""
    else if styleHidden d then ""
    else getVisibleTextList ch

def getVisibleTextList : List DNode → String
  | [] => ""
  | n :: ns => getVisibleText n ++ getVisibleTextList ns

end

/-- Replacement of every maximal whitespace run by a single space,
mirroring `.replace(/\s+/g, ' ')`. -/
def collapseWs : List Char → List Char
  | [] => []
  | [c] => if c.isWhitespace then [' '] else [c]
  | c :: c2 :: cs =>
    if c.isWhitespace && c2.isWhitespace then collapseWs (c2 :: cs)
    else (if c.isWhitespace then ' ' else c) :: collapseWs (c2 :: cs)

/-- Text normalization done by `scan`:
`.replace(/\s+/g, ' ').trim().slice(0, textTruncateLength)`. -/
def jsNormText (len : Nat) (s : String) : String :=
  String.mk ((trimChars (collapseWs s.data)).take len)

/-- A value stored in an element snapshot's `attributes` object: a string
or (for `checked` / `multiple`) a boolean. -/
inductive AttrVal where
  | str (s : String)
  | boolv (b : Bool)
  deriving DecidableEq, Repr

/-- `element.getAttribute(n)`: `none` models null. -/
def getAttr (d : ElemData) (n : String) : Option String :=
  (d.attrs.find? (fun p => p.1 = n)).map (fun p => p.2)

/-- A string-valued entry added only when the value is truthy. -/
def strIf (k v : String) : List (String × AttrVal) :=
  if v ≠ "" then [(k, AttrVal.str v)] else []

/-- A truthy-guarded entry from `getAttribute`. -/
def attrIf (k : String) (v : Option String) : List (String × AttrVal) :=
  match v with
  | some s => if s ≠ "" then [(k, AttrVal.str s)] else []
  | none => []

/-- Embedding of `extractElementAttributes` (src/browsermagic-dom.js:186);
the entry order mirrors the JS object's insertion order. -/
def extractElementAttributes (d : ElemData) : List (String × AttrVal) :=
  (if d.idAttr ≠ "" then [("id", AttrVal.str d.idAttr)] else []) ++
  (if d.className ≠ "" then [("class", AttrVal.str d.className)] else []) ++
  attrIf "name" (getAttr d "name") ++
  attrIf "role" (getAttr d "role") ++
  ((d.attrs.filter (fun p => "aria-".data.isPrefixOf p.1.data)).map (fun p => (p.1, AttrVal.str p.2))) ++
  (match lowerStr d.tag with
   | "a" => strIf "href" d.propHref ++ strIf "target" d.propTarget
   | "input" =>
     strIf "type" d.propType ++ strIf "placeholder" d.propPlaceholder ++
     strIf "value" d.propValue ++
     (match d.propChecked with
      | some b => [("checked", AttrVal.boolv b)]
      | none => [])
   | "button" => strIf "type" d.propType
   | "select" => if d.propMultiple then [("multiple", AttrVal.boolv true)] else []
   | "img" => strIf "alt" d.propAlt ++ strIf "src" d.propSrc
   | "label" => strIf "for" d.propHtmlFor
   | _ => [])

/-- Role inferred from the element type by `getElementRole`'s switch. -/
def roleFromTag (d : ElemData) : Option String :=
  match lowerStr d.tag with
  | "a" => some "link"
  | "button" => some "button"
  | "input" =>
    match lowerStr d.propType with
    | "checkbox" => some "checkbox"
    | "radio" => some "radio"
    | "submit" => some "button"
    | "button" => some "button"
    | _ => some "textbox"
  | "select" => some "combobox"
  | "textarea" => some "textbox"
  | "img" => some "img"
  | "h1" => some "heading"
  | "h2" => some "heading"
  | "h3" => some "heading"
  | "h4" => some "heading"
  | "h5" => some "heading"
  | "h6" => some "heading"
  | "nav" => some "navigation"
  | "main" => some "main"
  | "form" => some "form"
  | _ => none

/-- Embedding of `getElementRole` (src/browsermagic-dom.js:240). -/
def getElementRole (d : ElemData) : Option String :=
  match getAttr d "role" with
  | some v => if v ≠ "" then some v else roleFromTag d
  | none => roleFromTag d

/-- One captured Element Record.  `pos` is present iff `includePosition`;
`attributes`/`role` are present iff `extractAttributes` (`role`'s inner
`Option` is the possibly-null result of `getElementRole`). -/
structure Rec where
  tag : String
  xpath : String
  text : String
  inViewport : Bool
  pos : Option Rect
  attributes : Option (List (String × AttrVal))
  role : Option (Option String)
  deriving DecidableEq, Repr

/-- Per-call configuration of `takeSnapshot`, with the source's defaults
encoded by `defaultConfig`. -/
structure Config where
  includeTitle : Bool
  includeMetadata : Bool
  includeViewportInfo : Bool
  captureOutOfViewport : Bool
  includePosition : Bool
  includeShadowDOM : Bool
  elementFilter : Option (List String)
  textTruncateLength : Nat
  extractAttributes : Bool
  collectSemanticGroups : Bool

/-- Default options of `takeSnapshot` (src/browsermagic-dom.js:318). -/
def defaultConfig : Config :=
  ⟨true, true, true, true, true, true, none, 60, true, true⟩

/-- The default relevant-tag set of `scan` (src/browsermagic-dom.js:373). -/
def defaultRelevant : List String :=
  ["BUTTON", "A", "INPUT", "LABEL", "SELECT", "TEXTAREA", "IMG", "SVG",
   "DIV", "SPAN", "H1", "H2", "H3", "H4", "H5", "H6", "P"]

/-- The RELEVANT set: an `elementFilter` (even an empty one — any non-null
array is truthy) replaces the default set entirely, uppercased. -/
def relevantOf (cfg : Config) : List String :=
  match cfg.elementFilter with
  | some l => l.map upperStr
  | none => defaultRelevant

/-- The element snapshot object pushed by `scan` for the element `d` at
address `a` (`Math.round` is the identity on the integer rect model; for
an attached element `getXPathAt` never throws, so the `getD` default is
never taken). -/
def mkRec (cfg : Config) (doc : Doc) (a : Addr) (d : ElemData) (txt : String)
    (ivp : Bool) : Rec :=
  { tag := lowerStr d.tag
  , xpath := (getXPathAt doc a).getD ""
  , text := txt
  , inViewport := ivp
  , pos := if cfg.includePosition then some d.rect else none
  , attributes := if cfg.extractAttributes then some (extractElementAttributes d) else none
  , role := if cfg.extractAttributes then some (getElementRole d) else none }

mutual

/-- Embedding of the recursive `scan` (src/browsermagic-dom.js:385), with
each pushed element snapshot paired with the ghost address of the element
that produced it (the source pushes just the snapshot — see `scanNode` for
that projection).  For an element: the attached shadow tree is scanned
first (when `includeShadowDOM`), then the element itself is processed —
the style check throwing (`styleError`) skips the record but still scans
the light children (the `catch` branch), whereas a failed
style-visibility check, a zero-or-negative-size box, or an
out-of-viewport skip `return`s, dropping the light children as well — and
finally the light element children are scanned.  Text nodes hit the
instance-check guard and produce nothing. -/
def scanTNode (cfg : Config) (env : Env) (doc : Doc) (rel : List String)
    (a : Addr) : DNode → List (Addr × Rec)
  | .text _ => []
  | .elem d sh ch =>
    (if cfg.includeShadowDOM then
      match sh with
      | some shl => scanTList cfg env doc rel (a ++ [Step.intoShadow]) 0 shl
      | none => []
    else []) ++
    (if d.styleError then scanTList cfg env doc rel a 0 ch
     else if styleHidden d then []
     else if d.rect.width ≤ 0 || d.rect.height ≤ 0 then []
     else
       let ivp := inViewport env d.rect
       if !cfg.captureOutOfViewport && !ivp then []
       else
         let txt := jsNormText cfg.textTruncateLength (getVisibleText (.elem d sh ch))
         (if rel.contains d.tag || txt ≠ "" then [(a, mkRec cfg doc a d txt ivp)] else []) ++
         scanTList cfg env doc rel a 0 ch)

/-- The children loop of `scan`, with ghost addresses. -/
def scanTList (cfg : Config) (env : Env) (doc : Doc) (rel : List String)
    (base : Addr) (i : Nat) : List DNode → List (Addr × Rec)
  | [] => []
  | n :: ns =>
    scanTNode cfg env doc rel (base ++ [Step.child i]) n ++
    scanTList cfg env doc rel base (i + 1) ns

end
/-- The record list `scan` accumulates for a subtree: the instrumented
pairs with the ghost addresses dropped. -/
def scanNode (cfg : Config) (env : Env) (doc : Doc) (rel : List String)
    (a : Addr) (n : DNode) : List Rec :=
  (scanTNode cfg env doc rel a n).map Prod.snd

/-- The record list `scan` accumulates over a `children` collection. -/
def scanList (cfg : Config) (env : Env) (doc : Doc) (rel : List String)
    (base : Addr) (i : Nat) (ns : List DNode) : List Rec :=
  (scanTList cfg env doc rel base i ns).map Prod.snd

/-- Viewport block of a Page Snapshot. -/
structure ViewportInfo where
  width : Int
  height : Int
  scrollX : Int
  scrollY : Int
  deriving DecidableEq, Repr

/-- The five semantic groups. -/
structure Groups where
  navigation : List Rec
  interaction : List Rec
  content : List Rec
  media : List Rec
  forms : List Rec
  deriving DecidableEq, Repr

/-- A Page Snapshot value. -/
structure Snapshot where
  url : String
  timestamp : String
  title : Option String
  metadata : Option (List (String × String))
  viewport : Option ViewportInfo
  keyElements : List Rec
  semanticGroups : Option Groups
  deriving DecidableEq, Repr

/-- JS `a || b` on nullable strings: null/undefined and `""` are falsy. -/
def jsOrS : Option String → Option String → Option String
  | some s, b => if s = "" then b else some s
  | none, b => b

/-- Object-key update: overwrite in place if present, else append. -/
def upsert (m : List (String × String)) (k v : String) : List (String × String) :=
  if m.any (fun p => p.1 = k) then m.map (fun p => if p.1 = k then (k, v) else p)
  else m ++ [(k, v)]

/-- Metadata extraction of `takeSnapshot`: for each meta tag, the truthy
one of `name`/`property` paired with a truthy `content`. -/
def buildMetadata (metas : List MetaTag) : List (String × String) :=
  metas.foldl
    (fun m t =>
      match jsOrS t.nameAttr t.property, t.content with
      | some n, some c => if n ≠ "" && c ≠ "" then upsert m n c else m
      | _, _ => m)
    []

/-- Containment of a contiguous character run, used to model JS
`String.prototype.includes`. -/
def containsRun (pat : List Char) : List Char → Bool
  | [] => pat.isPrefixOf ([] : List Char)
  | c :: cs => pat.isPrefixOf (c :: cs) || containsRun pat cs

/-- Lookup of `el.attributes?.class?.includes('nav')`: true when the
record carries an `attributes` object whose `class` entry is a string
containing `"nav"`. -/
def classHasNav (r : Rec) : Bool :=
  match r.attributes with
  | some al =>
    match (al.find? (fun p => p.1 = "class")).map (fun p => p.2) with
    | some (AttrVal.str s) => containsRun "nav".toList s.toList
    | _ => false
  | none => false

/-- First grouping rule: navigation. -/
def isNavRec (r : Rec) : Bool :=
  r.role == some (some "navigation") || r.tag == "nav" || (r.tag == "ul" && classHasNav r)

/-- Second grouping rule: interaction. -/
def isInteractionRec (r : Rec) : Bool :=
  r.tag == "button" || r.tag == "a" ||
  r.role == some (some "button") || r.role == some (some "link")

/-- Third grouping rule: forms. -/
def isFormsRec (r : Rec) : Bool :=
  ["input", "select", "textarea", "form"].contains r.tag || r.role == some (some "form")

/-- Fourth grouping rule: media. -/
def isMediaRec (r : Rec) : Bool :=
  r.tag == "img" || r.tag == "video" || r.tag == "audio" || r.role == some (some "img")

/-- Fifth grouping rule: content with non-blank text. -/
def isContentRec (r : Rec) : Bool :=
  ["h1", "h2", "h3", "h4", "h5", "h6", "p", "span", "div"].contains r.tag &&
  r.text ≠ "" && (jsTrim r.text).length > 0

/-- One iteration of the `forEach` of `groupElementsBySemantic`: the
if/else-if chain pushes the record into the first matching group. -/
def groupStep (g : Groups) (r : Rec) : Groups :=
  if isNavRec r then { g with navigation := g.navigation ++ [r] }
  else if isInteractionRec r then { g with interaction := g.interaction ++ [r] }
  else if isFormsRec r then { g with forms := g.forms ++ [r] }
  else if isMediaRec r then { g with media := g.media ++ [r] }
  else if isContentRec r then { g with content := g.content ++ [r] }
  else g

/-- Embedding of `groupElementsBySemantic` (src/browsermagic-dom.js:282). -/
def groupElementsBySemantic (els : List Rec) : Groups :=
  els.foldl groupStep ⟨[], [], [], [], []⟩

/-- Embedding of `takeSnapshot` (src/browsermagic-dom.js:317).  The only
impure read besides the DOM/window state in `env`/`doc` is
`new Date().toISOString()`, passed here as the `timestamp` argument. -/
def takeSnapshot (env : Env) (doc : Doc) (timestamp : String) (cfg : Config) : Snapshot :=
  let rel := relevantOf cfg
  let results :=
    match bodyAddrOf doc with
    | some a =>
      match curAt doc a with
      | some (.curEl _ d sh ch) => scanNode cfg env doc rel a (.elem d sh ch)
      | _ => []
    | none => []
  { url := env.url
  , timestamp := timestamp
  , title := if cfg.includeTitle then some env.title else none
  , metadata := if cfg.includeMetadata then some (buildMetadata env.metas) else none
  , viewport :=
      if cfg.includeViewportInfo then
        some ⟨jsOrI env.innerWidth env.clientWidth, jsOrI env.innerHeight env.clientHeight,
              jsOrI env.scrollX env.pageXOffset, jsOrI env.scrollY env.pageYOffset⟩
      else none
  , keyElements := results
  , semanticGroups :=
      if cfg.collectSemanticGroups then some (groupElementsBySemantic results) else none }



/-- Whether the upward chain of an element reaches an element whose
`parentNode` is null (in which case the source's sibling computation
throws a TypeError). -/
def hitsNullParent : UpCtx → Bool
  | .nullParent => true
  | .inDoc _ _ => false
  | .inFrag _ _ => false
  | .inElem _ _ _ c => hitsNullParent c

/-- First-match placement predicate of the `navigation` group. -/
def navP (r : Rec) : Bool := isNavRec r

/-- First-match placement predicate of the `interaction` group. -/
def interP (r : Rec) : Bool := !isNavRec r && isInteractionRec r

/-- First-match placement predicate of the `forms` group. -/
def formsP (r : Rec) : Bool := !isNavRec r && !isInteractionRec r && isFormsRec r

/-- First-match placement predicate of the `media` group. -/
def mediaP (r : Rec) : Bool :=
  !isNavRec r && !isInteractionRec r && !isFormsRec r && isMediaRec r

/-- First-match placement predicate of the `content` group. -/
def contentP (r : Rec) : Bool :=
  !isNavRec r && !isInteractionRec r && !isFormsRec r && !isMediaRec r && isContentRec r

/-- How many of the five semantic groups contain the record. -/
def countGroupsContaining (g : Groups) (r : Rec) : Nat :=
  (if r ∈ g.navigation then 1 else 0) + (if r ∈ g.interaction then 1 else 0) +
  (if r ∈ g.content then 1 else 0) + (if r ∈ g.media then 1 else 0) +
  (if r ∈ g.forms then 1 else 0)

/-- Whether a cursor lookup found an element node. -/
def isElemCur : Option Cur → Bool
  | some (.curEl _ _ _ _) => true
  | _ => false

/-- A visible element with the given tag and rect and no attributes. -/
def plainElem (tag : String) (r : Rect) : ElemData :=
  ⟨tag, "block", "visible", 1, false, r, "", "", [], "", "", "", "", "", "", "", "", none, false⟩

/-- An element whose style/geometry queries throw, used as a concrete
instance of the fail-open branch. -/
def errElem : ElemData :=
  ⟨"DIV", "none", "hidden", 0, true, ⟨0, 0, 0, 0⟩, "", "", [], "", "", "", "", "", "", "", "", none, false⟩

/-- A concrete environment: a 800x600 viewport at origin. -/
def exEnv : Env := ⟨800, 600, 800, 600, 0, 0, 0, 0, "http://example.test/", "T", []⟩

/-- The worked-scenario document
`<body><button>Go</button><div><p>Hi</p></div></body>`, everything
rendered visible inside the viewport. -/
def exDoc : Doc := ⟨[
  .elem (plainElem "HTML" ⟨0, 0, 800, 600⟩) none [
    .elem (plainElem "BODY" ⟨0, 0, 800, 600⟩) none [
      .elem (plainElem "BUTTON" ⟨10, 10, 100, 30⟩) none [.text "Go"],
      .elem (plainElem "DIV" ⟨10, 50, 200, 50⟩) none [
        .elem (plainElem "P" ⟨10, 50, 200, 20⟩) none [.text "Hi"]]]]]⟩

/-- A document whose body holds a visible `div` hosting an attached shadow
tree that contains a visible `button`. -/
def shadowDoc : Doc := ⟨[
  .elem (plainElem "HTML" ⟨0, 0, 800, 600⟩) none [
    .elem (plainElem "BODY" ⟨0, 0, 800, 600⟩) none [
      .elem (plainElem "DIV" ⟨10, 10, 300, 100⟩)
        (some [.elem (plainElem "BUTTON" ⟨20, 20, 80, 30⟩) none [.text "Go"]]) []]]]⟩

/-- Address of the button inside `shadowDoc`'s shadow tree. -/
def shadowAddr : Addr :=
  [.child 0, .child 0, .child 0, .intoShadow, .child 0]

/-- A document whose body holds a `button` positioned wholly left of the
viewport origin (`x = -500`, `x + width < 0`). -/
def offViewDoc : Doc := ⟨[
  .elem (plainElem "HTML" ⟨0, 0, 800, 600⟩) none [
    .elem (plainElem "BODY" ⟨0, 0, 800, 600⟩) none [
      .elem (plainElem "BUTTON" ⟨-500, 10, 100, 30⟩) none [.text "Go"]]]]⟩

/-- The default configuration with `captureOutOfViewport` disabled. -/
def cfgNoOov : Config := { defaultConfig with captureOutOfViewport := false }


/-- The element-level checks an element must pass for `scan` to push its
record: no style/geometry exception, style-visible, positive box, and in
the viewport unless out-of-viewport capture is enabled. -/
def scanVisibleOk (cfg : Config) (env : Env) (d : ElemData) : Bool :=
  !d.styleError && !styleHidden d &&
  !(d.rect.width ≤ 0 || d.rect.height ≤ 0) &&
  (cfg.captureOutOfViewport || inViewport env d.rect)

/-- The address-instrumented record list of a snapshot call. -/
def snapshotPairs (cfg : Config) (env : Env) (doc : Doc) : List (Addr × Rec) :=
  match bodyAddrOf doc with
  | some a =>
    match curAt doc a with
    | some (.curEl _ d sh ch) => scanTNode cfg env doc (relevantOf cfg) a (.elem d sh ch)
    | _ => []
  | none => []

/-- An invisible (`display:none`) element with the given tag. -/
def hiddenElem (tag : String) (r : Rect) : ElemData :=
  ⟨tag, "none", "visible", 1, false, r, "", "", [], "", "", "", "", "", "", "", "", none, false⟩

/-- The shadow children of the hidden host below. -/
def hiddenHostShadow : List DNode :=
  [.elem (plainElem "BUTTON" ⟨20, 20, 80, 30⟩) none [.text "Go"]]

/-- Address of the hidden shadow host `div` in `hiddenHostDoc`. -/
def hiddenHostAddr : Addr := [.child 0, .child 0, .child 0]

/-- Upward context of the hidden shadow host `div` in `hiddenHostDoc`. -/
def hiddenHostCtx : UpCtx :=
  .inElem [some "DIV"] 0 "BODY" (.inElem [some "BODY"] 0 "HTML" (.inDoc [some "HTML"] 0))

/-- A document whose body holds a `display:none` `div` hosting an attached
shadow tree containing a visible `button`. -/
def hiddenHostDoc : Doc := ⟨[
  .elem (plainElem "HTML" ⟨0, 0, 800, 600⟩) none [
    .elem (plainElem "BODY" ⟨0, 0, 800, 600⟩) none [
      .elem (hiddenElem "DIV" ⟨0, 0, 0, 0⟩) (some hiddenHostShadow) []]]]⟩

/-- The per-record soundness fact `scan` guarantees: the record's source
address holds an element that passed every push-gating check. -/
def goodPair (cfg : Config) (env : Env) (doc : Doc) (p : Addr × Rec) : Prop :=
  ∃ ctx d sh ch, curAt doc p.1 = some (.curEl ctx d sh ch) ∧ scanVisibleOk cfg env d = true

/-- The ordering invariant of the instrumented record list: a record of a
light-DOM descendant comes after its ancestor's record, and a record from
inside an element's shadow tree comes before that element's own record. -/
def preorderShadowFirst (l : List (Addr × Rec)) : Prop :=
  ∀ i j a1 r1 a2 r2 s, l.get? i = some (a1, r1) → l.get? j = some (a2, r2) →
    a2 = a1 ++ s →
    (∀ k t, s = Step.child k :: t → i < j) ∧ (∀ t, s = Step.intoShadow :: t → j < i)

/-- Address of the shadow host `div` in `shadowDoc`. -/
def shadowHostAddr : Addr := [.child 0, .child 0, .child 0]

/-- The record `takeSnapshot` captures for the shadow button of
`shadowDoc` under the default configuration. -/
def shadowBtnRec : Rec :=
  { tag := "button", xpath := "/button", text := "Go", inViewport := true
  , pos := some ⟨20, 20, 80, 30⟩, attributes := some [], role := some (some "button") }

/-- The record `takeSnapshot` captures for the shadow host `div` of
`shadowDoc` under the default configuration. -/
def shadowHostRec : Rec :=
  { tag := "div", xpath := "/html/body/div", text := "", inViewport := true
  , pos := some ⟨10, 10, 300, 100⟩, attributes := some [], role := some none }


/-- The address shapes a record emitted for the subtree rooted at `a` can
take: the root itself, inside the root's shadow tree, or inside a light
child. -/
def extShape (a : Addr) (p : Addr × Rec) : Prop :=
  p.1 = a ∨ (∃ u, p.1 = a ++ Step.intoShadow :: u) ∨ (∃ k u, p.1 = a ++ Step.child k :: u)

/-- The address shape of records emitted by the children loop started at
offset `i`: inside the light child at some index `k ≥ i`. -/
def extShapeList (base : Addr) (i : Nat) (p : Addr × Rec) : Prop :=
  ∃ k u, i ≤ k ∧ p.1 = base ++ Step.child k :: u

/-- The shadow-tree portion of `scan`'s output for one element. -/
def shadowPart (cfg : Config) (env : Env) (doc : Doc) (rel : List String)
    (a : Addr) (sh : Option (List DNode)) : List (Addr × Rec) :=
  if cfg.includeShadowDOM then
    match sh with
    | some shl => scanTList cfg env doc rel (a ++ [Step.intoShadow]) 0 shl
    | none => []
  else []

/-- The own-record-and-light-children portion of `scan`'s output for one
element. -/
def mainPart (cfg : Config) (env : Env) (doc : Doc) (rel : List String)
    (a : Addr) (d : ElemData) (sh : Option (List DNode)) (ch : List DNode) :
    List (Addr × Rec) :=
  if d.styleError then scanTList cfg env doc rel a 0 ch
  else if styleHidden d then []
  else if d.rect.width ≤ 0 || d.rect.height ≤ 0 then []
  else if !cfg.captureOutOfViewport && !inViewport env d.rect then []
  else
    (if rel.contains d.tag ||
        jsNormText cfg.textTruncateLength (getVisibleText (.elem d sh ch)) ≠ "" then
      [(a, mkRec cfg doc a d
          (jsNormText cfg.textTruncateLength (getVisibleText (.elem d sh ch)))
          (inViewport env d.rect))]
    else []) ++ scanTList cfg env doc rel a 0 ch

/-- A semantic locator segment, the parse of `segOf`'s output. -/
def segSpec (tag : String) (sibs : List (Option String)) (i : Nat) : Seg :=
  if (sibs.filter (fun t => t = some tag)).length = 1 then ⟨lowerStr tag, none⟩
  else ⟨lowerStr tag, some (1 + ((sibs.take i).filter (fun t => t = some tag)).length)⟩

/-- Whether a node is an element whose XPath-visible (lowercased) name
equals the query. -/
def lowMatch (q : String) : DNode → Bool
  | .elem d _ _ => lowerStr d.tag == q
  | .text _ => false

/-- A tag whose lowercasing is nonempty and free of the locator
metacharacters `/` and `[`; every real HTML/SVG tag name qualifies. -/
def safeTag (t : String) : Bool :=
  !((lowerStr t).data.isEmpty) &&
  (lowerStr t).data.all (fun c => c ≠ '/' && c ≠ '[')

/-- Lowercase-injectivity of the element tags of one `childNodes` list:
two element siblings whose names agree after lowercasing have equal
`tagName`s.  This is how a real DOM behaves (`localName` is the
lowercased `tagName` for HTML elements and the literal `tagName` for
foreign elements), and it is what makes an XPath name test select exactly
the same-`tagName` siblings `getXPath` counted. -/
def tagLowerInj (ns : List DNode) : Bool :=
  ns.all fun x =>
    ns.all fun y =>
      match x, y with
      | .elem dx _ _, .elem dy _ _ =>
        !(lowerStr dx.tag == lowerStr dy.tag) || (dx.tag == dy.tag)
      | _, _ => true

mutual

/-- Well-formedness of a light subtree: safe tag names and
lowercase-injective sibling lists throughout (shadow content is invisible
to the resolver and so unconstrained). -/
def wfNode : DNode → Bool
  | .text _ => true
  | .elem d _ ch => safeTag d.tag && tagLowerInj ch && wfList ch

/-- Well-formedness of a list of light subtrees. -/
def wfList : List DNode → Bool
  | [] => true
  | n :: ns => wfNode n && wfList ns

end

/-- Well-formedness of a document: a single element child — the `HTML`
document element, as in any ordinary HTML document — with a well-formed
light tree below it. -/
def WfDoc (doc : Doc) : Bool :=
  match doc.children with
  | [.elem d _ ch] =>
    d.tag == "HTML" && safeTag d.tag && tagLowerInj ch && wfList ch &&
    ch.all (fun x => lowMatch "body" x == isElemTag "BODY" x)
  | _ => false

/-- Whether a step stays in the light DOM. -/
def isChildStep : Step → Bool
  | .child _ => true
  | .intoShadow => false

/-- A well-behaved synthesized segment list: nonempty, slash-free
segments that parse back and whose evaluation from the document returns
exactly the target address. -/
def goodSegs (doc : Doc) (segs : List String) (target : Addr) : Prop :=
  segs ≠ [] ∧ (∀ s ∈ segs, s.data ≠ [] ∧ s.data.all (fun c => c ≠ '/')) ∧
  ∃ specs, (segs.map String.data).mapM parseSeg = some specs ∧
    evalSegs doc specs = [target]

theorem xwalk_isNone_iff (t : String) (c : UpCtx) :
    xwalk t c = none ↔ hitsNullParent c = true := by
  induction c generalizing t with
  | nullParent => simp [xwalk, hitsNullParent]
  | inDoc sibs i => simp [xwalk, hitsNullParent]
  | inFrag sibs i => simp [xwalk, hitsNullParent]
  | inElem sibs i ptag pctx ih =>
    cases h : xwalk ptag pctx with
    | none => simp [xwalk, hitsNullParent, h, ← ih ptag]
    | some segs => simp [xwalk, hitsNullParent, h, ← ih ptag]

/-- C6: two `takeSnapshot` calls on the same DOM state, browser globals
and configuration produce the same Page Snapshot apart from `timestamp` —
in particular identical `keyElements` sequences. -/
theorem c6_snapshot_deterministic (env : Env) (doc : Doc) (cfg : Config) (ts1 ts2 : String) :
    takeSnapshot env doc ts1 cfg = { takeSnapshot env doc ts2 cfg with timestamp := ts1 } ∧
    (takeSnapshot env doc ts1 cfg).keyElements = (takeSnapshot env doc ts2 cfg).keyElements :=
  ⟨rfl, rfl⟩

/-- C7: `inViewport` holds exactly when the box's right and bottom edges
exceed 0 and its left and top edges are below the viewport extent; a
candidate wholly left of the origin (`x = -500`, `x + width < 0`) is
recorded with `inViewport = false` under `captureOutOfViewport = true`,
and is absent under `captureOutOfViewport = false`. -/
theorem c7_viewport_classification :
    (∀ (env : Env) (r : Rect),
      inViewport env r = true ↔
        (r.x + r.width > 0 ∧ r.y + r.height > 0 ∧
         r.x < jsOrI env.innerWidth env.clientWidth ∧
         r.y < jsOrI env.innerHeight env.clientHeight)) ∧
    ((takeSnapshot exEnv offViewDoc "ts" defaultConfig).keyElements.map
        (fun r => (r.tag, r.inViewport)) = [("body", true), ("button", false)]) ∧
    ((takeSnapshot exEnv offViewDoc "ts" cfgNoOov).keyElements.map
        (fun r => (r.tag, r.inViewport)) = [("body", true)]) := by
  refine ⟨?_, by decide, by decide⟩
  intro env r
  simp [inViewport, Bool.and_eq_true, decide_eq_true_eq, and_assoc]

/-- C8: `isElementVisible` classifies null input invisible, while any
element whose style/geometry queries throw is classified visible
(fail-open); null is thus the one input answered `false` without
inspecting the node. -/
theorem c8_null_invisible_error_failopen :
    isElementVisible none = false ∧
    ∀ d : ElemData, d.styleError = true → isElementVisible (some d) = true := by
  refine ⟨rfl, ?_⟩
  intro d h
  simp [isElementVisible, h]

theorem c8_witness :
    isElementVisible none = false ∧ isElementVisible (some errElem) = true :=
  ⟨c8_null_invisible_error_failopen.1, c8_null_invisible_error_failopen.2 errElem rfl⟩

theorem c2_detached_throws_cex :
    getXPath (GXInput.node "DIV" UpCtx.nullParent) = none := rfl

/-- C2 (amended): `getXPath` returns the empty string on null input and a
segment path up to the highest reachable ancestor whenever the upward
element chain terminates at the document or at a non-element container;
but for a node whose chain reaches an element with a null `parentNode`
(e.g. any freshly created detached element) it throws a TypeError instead
of returning. -/
theorem c2_amended_synthesis_totality :
    getXPath GXInput.jsNull = some "" ∧
    ∀ inp : GXInput,
      (getXPath inp = none ↔ ∃ t c, inp = GXInput.node t c ∧ hitsNullParent c = true) := by
  refine ⟨rfl, ?_⟩
  intro inp
  cases inp with
  | node t c =>
    cases h : xwalk t c with
    | none =>
      simp only [getXPath, h, Option.map_none]
      exact iff_of_true rfl ⟨t, c, rfl, (xwalk_isNone_iff t c).mp h⟩
    | some segs =>
      simp only [getXPath, h, Option.map_some]
      have hn : hitsNullParent c = false := by
        rcases hh : hitsNullParent c with _ | _
        · rfl
        · exact absurd ((xwalk_isNone_iff t c).mpr hh) (by simp [h])
      simp [hn]
  | jsNull => simp [getXPath]
  | theDoc => simp [getXPath]
  | theDocElement => simp [getXPath]
  | theBody => simp [getXPath]
  | nonElement => simp [getXPath]

theorem c4_scenario_cex :
    (takeSnapshot exEnv exDoc "ts" defaultConfig).keyElements.length = 4 ∧
    ¬ (takeSnapshot exEnv exDoc "ts" defaultConfig).keyElements.length = 3 := by
  refine ⟨by decide, by decide⟩

/-- C4 (amended): on the worked scenario the `elements` sequence has
length 4 — body (text `"GoHi"`, captured because its visible text is
non-empty), button (`"Go"`), div (captured because `DIV` is in the
default relevant set, text `"Hi"`), and p (`"Hi"`) — with
`semanticGroups.interaction` holding the button record and
`semanticGroups.content` the div and p records. -/
theorem c4_scenario_amended :
    ((takeSnapshot exEnv exDoc "ts" defaultConfig).keyElements.map (fun r => (r.tag, r.text))
      = [("body", "GoHi"), ("button", "Go"), ("div", "Hi"), ("p", "Hi")]) ∧
    ((takeSnapshot exEnv exDoc "ts" defaultConfig).semanticGroups.map
        (fun g => (g.interaction.map (fun r => (r.tag, r.text)),
                   g.content.map (fun r => (r.tag, r.text))))
      = some ([("button", "Go")], [("div", "Hi"), ("p", "Hi")])) := by
  refine ⟨by decide, by decide⟩

theorem c3_shadow_order_cex :
    ((takeSnapshot exEnv shadowDoc "ts" defaultConfig).keyElements.map (fun r => (r.tag, r.xpath)))
      = [("button", "/button"), ("div", "/html/body/div")] := by decide

theorem c1_shadow_roundtrip_cex :
    isElemCur (curAt shadowDoc shadowAddr) = true ∧
    getXPathAt shadowDoc shadowAddr = some "/button" ∧
    findElementByXPath shadowDoc ((getXPathAt shadowDoc shadowAddr).getD "") = none := by
  refine ⟨rfl, by decide, by decide⟩

theorem groupFold_eq (els : List Rec) (g : Groups) :
    els.foldl groupStep g =
      ⟨g.navigation ++ els.filter navP, g.interaction ++ els.filter interP,
       g.content ++ els.filter contentP, g.media ++ els.filter mediaP,
       g.forms ++ els.filter formsP⟩ := by
  induction els generalizing g with
  | nil => cases g <;> simp
  | cons r rs ih =>
    rw [List.foldl_cons, ih]
    by_cases h1 : isNavRec r <;> by_cases h2 : isInteractionRec r <;>
      by_cases h3 : isFormsRec r <;> by_cases h4 : isMediaRec r <;>
      by_cases h5 : isContentRec r <;>
      simp [groupStep, navP, interP, formsP, mediaP, contentP,
            h1, h2, h3, h4, h5, List.filter_cons]

/-- C10: `groupElementsBySemantic` returns exactly the five groups
navigation, interaction, content, media and forms; each group equals the
input filtered by its first-match rule (the if/else chain evaluated
navigation, interaction, forms, media, content), so each group preserves
the input's relative order (it is a sublist of the input) and every
record value lands in at most one group. -/
theorem c10_semantic_grouping (els : List Rec) :
    groupElementsBySemantic els =
      ⟨els.filter navP, els.filter interP, els.filter contentP,
       els.filter mediaP, els.filter formsP⟩ ∧
    List.Sublist (groupElementsBySemantic els).navigation els ∧
    List.Sublist (groupElementsBySemantic els).interaction els ∧
    List.Sublist (groupElementsBySemantic els).content els ∧
    List.Sublist (groupElementsBySemantic els).media els ∧
    List.Sublist (groupElementsBySemantic els).forms els ∧
    ∀ r : Rec, countGroupsContaining (groupElementsBySemantic els) r ≤ 1 := by
  have hchar : groupElementsBySemantic els =
      ⟨els.filter navP, els.filter interP, els.filter contentP,
       els.filter mediaP, els.filter formsP⟩ := by
    unfold groupElementsBySemantic
    rw [groupFold_eq]
    simp
  refine ⟨hchar, ?_, ?_, ?_, ?_, ?_, ?_⟩
  · rw [hchar]; exact List.filter_sublist els
  · rw [hchar]; exact List.filter_sublist els
  · rw [hchar]; exact List.filter_sublist els
  · rw [hchar]; exact List.filter_sublist els
  · rw [hchar]; exact List.filter_sublist els
  · intro r
    rw [hchar]
    by_cases h1 : isNavRec r <;> by_cases h2 : isInteractionRec r <;>
      by_cases h3 : isFormsRec r <;> by_cases h4 : isMediaRec r <;>
      by_cases h5 : isContentRec r <;>
      simp [countGroupsContaining, List.mem_filter, navP, interP, formsP,
            mediaP, contentP, h1, h2, h3, h4, h5] <;>
      split <;> omega

theorem foldlM_stepCur_append (l1 l2 : List Step) (c : Cur) :
    (l1 ++ l2).foldlM stepCur c =
      (l1.foldlM stepCur c).bind (fun c2 => l2.foldlM stepCur c2) := by
  induction l1 generalizing c with
  | nil => simp
  | cons s l1 ih =>
    simp only [List.cons_append, List.foldlM_cons]
    cases stepCur c s with
    | none => simp
    | some c2 => simp [ih]

theorem curAt_append (doc : Doc) (a b : Addr) :
    curAt doc (a ++ b) = (curAt doc a).bind (fun c => b.foldlM stepCur c) := by
  unfold curAt
  exact foldlM_stepCur_append a b _

theorem curAt_snoc (doc : Doc) (a : Addr) (s : Step) :
    curAt doc (a ++ [s]) = (curAt doc a).bind (fun c => stepCur c s) := by
  rw [curAt_append]
  cases curAt doc a with
  | none => rfl
  | some c =>
    simp only [Option.some_bind]
    cases h : stepCur c s <;> simp [h]

theorem dnode_mutual_ind {P : DNode → Prop} {Q : List DNode → Prop}
    (htext : ∀ s, P (.text s))
    (helem : ∀ d sh ch, (∀ shl, sh = some shl → Q shl) → Q ch → P (.elem d sh ch))
    (hnil : Q [])
    (hcons : ∀ n ns, P n → Q ns → Q (n :: ns)) :
    (∀ n, P n) ∧ (∀ ns, Q ns) := by
  have key : ∀ k : Nat,
      (∀ n : DNode, sizeOf n ≤ k → P n) ∧ (∀ ns : List DNode, sizeOf ns ≤ k → Q ns) := by
    intro k
    induction k with
    | zero =>
      constructor
      · intro n hn
        cases n <;> simp_arith at hn
      · intro ns hns
        cases ns with
        | nil => exact hnil
        | cons n ns => simp_arith at hns
    | succ k ih =>
      constructor
      · intro n hn
        cases n with
        | text s => exact htext s
        | elem d sh ch =>
          apply helem
          · intro shl hsh
            subst hsh
            apply ih.2
            simp_arith at hn
            omega
          · apply ih.2
            simp_arith at hn
            omega
      · intro ns hns
        cases ns with
        | nil => exact hnil
        | cons n ns =>
          apply hcons
          · apply ih.1
            simp_arith at hns
            omega
          · apply ih.2
            simp_arith at hns
            omega
  exact ⟨fun n => (key (sizeOf n)).1 n (Nat.le_refl _),
         fun ns => (key (sizeOf ns)).2 ns (Nat.le_refl _)⟩

theorem keyElements_eq_pairs (env : Env) (doc : Doc) (ts : String) (cfg : Config) :
    (takeSnapshot env doc ts cfg).keyElements = (snapshotPairs cfg env doc).map Prod.snd := by
  unfold takeSnapshot snapshotPairs scanNode
  cases hb : bodyAddrOf doc with
  | none => simp
  | some a =>
    cases h : curAt doc a with
    | none => simp [h]
    | some c => cases c <;> simp [h]

theorem scanT_source_checks (cfg : Config) (env : Env) (doc : Doc) (rel : List String) :
    (∀ n : DNode, ∀ a ctx d sh ch, n = DNode.elem d sh ch →
        curAt doc a = some (.curEl ctx d sh ch) →
        ∀ p ∈ scanTNode cfg env doc rel a n, goodPair cfg env doc p) ∧
    (∀ ns : List DNode, ∀ base i c, curAt doc base = some c →
        (∀ j, ns.get? j = (curChildren c).get? (i + j)) →
        ∀ p ∈ scanTList cfg env doc rel base i ns, goodPair cfg env doc p) := by
  apply dnode_mutual_ind
    (P := fun n => ∀ a ctx d sh ch, n = DNode.elem d sh ch →
        curAt doc a = some (.curEl ctx d sh ch) →
        ∀ p ∈ scanTNode cfg env doc rel a n, goodPair cfg env doc p)
    (Q := fun ns => ∀ base i c, curAt doc base = some c →
        (∀ j, ns.get? j = (curChildren c).get? (i + j)) →
        ∀ p ∈ scanTList cfg env doc rel base i ns, goodPair cfg env doc p)
  · intro s a ctx d sh ch heq
    cases heq
  · intro d sh ch hsh hch a ctx d' sh' ch' heq hcur
    cases heq
    intro p hp
    rw [scanTNode.eq_def] at hp
    rcases List.mem_append.mp hp with hS | hM
    · by_cases hSD : cfg.includeShadowDOM
      · rw [if_pos hSD] at hS
        cases sh with
        | none => simp at hS
        | some shl =>
          refine hsh shl rfl (a ++ [Step.intoShadow]) 0 (.curFrag shl) ?_ ?_ p hS
          · rw [curAt_snoc, hcur]
            rfl
          · intro j
            simp [curChildren]
      · rw [if_neg hSD] at hS
        simp at hS
    · by_cases hE : d.styleError
      · rw [if_pos hE] at hM
        refine hch a 0 (.curEl ctx d sh ch) hcur ?_ p hM
        intro j
        simp [curChildren]
      · rw [if_neg hE] at hM
        by_cases hH : styleHidden d
        · rw [if_pos hH] at hM
          simp at hM
        · rw [if_neg hH] at hM
          by_cases hZ : (d.rect.width ≤ 0 || d.rect.height ≤ 0) = true
          · rw [if_pos hZ] at hM
            simp at hM
          · rw [if_neg hZ] at hM
            by_cases hV : (!cfg.captureOutOfViewport && !inViewport env d.rect) = true
            · rw [if_pos hV] at hM
              simp at hM
            · rw [if_neg hV] at hM
              rcases List.mem_append.mp hM with hO | hC
              · have hpa : p = (a, mkRec cfg doc a d
                    (jsNormText cfg.textTruncateLength (getVisibleText (.elem d sh ch)))
                    (inViewport env d.rect)) := by
                  by_cases hR : (rel.contains d.tag ||
                      jsNormText cfg.textTruncateLength (getVisibleText (.elem d sh ch)) ≠ "") = true
                  · rw [if_pos hR] at hO
                    simpa using hO
                  · rw [if_neg hR] at hO
                    simp at hO
                refine ⟨ctx, d, sh, ch, ?_, ?_⟩
                · rw [hpa]
                  exact hcur
                · simp only [scanVisibleOk, Bool.and_eq_true, Bool.not_eq_true']
                  refine ⟨⟨⟨?_, ?_⟩, ?_⟩, ?_⟩
                  · simpa using hE
                  · simpa using hH
                  · simpa using hZ
                  · cases hc : cfg.captureOutOfViewport with
                    | true => simp
                    | false =>
                      cases hiv : inViewport env d.rect with
                      | true => simp
                      | false => exact absurd (by simp [hc, hiv]) hV
              · refine hch a 0 (.curEl ctx d sh ch) hcur ?_ p hC
                intro j
                simp [curChildren]
  · intro base i c hcur hinv p hp
    rw [scanTList.eq_def] at hp
    simp at hp
  · intro n ns hn hns base i c hcur hinv p hp
    rw [scanTList.eq_def] at hp
    rcases List.mem_append.mp hp with hH | hT
    · cases n with
      | text s =>
        rw [scanTNode.eq_def] at hH
        simp at hH
      | elem d sh ch =>
        refine hn (base ++ [Step.child i]) (childCtxOf c i) d sh ch rfl ?_ p hH
        have h0 : (curChildren c)[i]? = some (DNode.elem d sh ch) := by
          have h1 := hinv 0
          simpa using h1.symm
        rw [curAt_snoc, hcur]
        simp only [Option.some_bind]
        simp [stepCur, h0]
    · refine hns base (i + 1) c hcur ?_ p hT
      intro j
      have hj := hinv (j + 1)
      simp only [List.get?_cons_succ] at hj
      rw [hj]
      congr 1
      omega

/-- C5: an element that reports `display:none` — and generally any element
failing `scan`'s style-visibility check or having a non-positive-area
bounding box — never contributes a record to the `elements` sequence of
any `takeSnapshot` call, for every configuration, regardless of
`elementFilter` and of the element's text. -/
theorem c5_invisibility_exclusion (cfg : Config) (env : Env) (doc : Doc) (ts : String)
    (a : Addr) (ctx : UpCtx) (d : ElemData) (sh : Option (List DNode)) (ch : List DNode)
    (hel : curAt doc a = some (.curEl ctx d sh ch))
    (hinv : d.display = "none" ∨ styleHidden d = true ∨ d.rect.width ≤ 0 ∨ d.rect.height ≤ 0) :
    (∀ r : Rec, (a, r) ∉ snapshotPairs cfg env doc) ∧
    (takeSnapshot env doc ts cfg).keyElements = (snapshotPairs cfg env doc).map Prod.snd := by
  refine ⟨?_, keyElements_eq_pairs env doc ts cfg⟩
  intro r hmem
  have hgood : goodPair cfg env doc (a, r) := by
    unfold snapshotPairs at hmem
    rcases hb : bodyAddrOf doc with _ | a0
    · simp only [hb] at hmem
      simp at hmem
    · simp only [hb] at hmem
      rcases hc : curAt doc a0 with _ | c
      · simp only [hc] at hmem
        simp at hmem
      · simp only [hc] at hmem
        cases c with
        | curEl ctx0 d0 sh0 ch0 =>
          exact (scanT_source_checks cfg env doc (relevantOf cfg)).1
            (.elem d0 sh0 ch0) a0 ctx0 d0 sh0 ch0 rfl hc (a, r) hmem
        | curDoc ns => simp at hmem
        | curFrag ns => simp at hmem
        | curText s => simp at hmem
  rcases hgood with ⟨ctx2, d2, sh2, ch2, hcur2, hok⟩
  have heq := hel.symm.trans hcur2
  simp only [Option.some.injEq, Cur.curEl.injEq] at heq
  obtain ⟨-, hd, -, -⟩ := heq
  subst hd
  simp only [scanVisibleOk, Bool.and_eq_true, Bool.not_eq_true'] at hok
  obtain ⟨⟨⟨hE, hH⟩, hZ⟩, -⟩ := hok
  rcases hinv with h | h | h | h
  · simp [styleHidden, h] at hH
  · simp [h] at hH
  · simp only [Bool.or_eq_false_iff, decide_eq_false_iff_not] at hZ
    exact absurd h hZ.1
  · simp only [Bool.or_eq_false_iff, decide_eq_false_iff_not] at hZ
    exact absurd h hZ.2

theorem c5_witness :
    curAt hiddenHostDoc hiddenHostAddr =
      some (.curEl hiddenHostCtx (hiddenElem "DIV" ⟨0, 0, 0, 0⟩) (some hiddenHostShadow) []) ∧
    (hiddenElem "DIV" ⟨0, 0, 0, 0⟩).display = "none" ∧
    ∀ r : Rec, (hiddenHostAddr, r) ∉ snapshotPairs defaultConfig exEnv hiddenHostDoc :=
  ⟨rfl, rfl,
    (c5_invisibility_exclusion defaultConfig exEnv hiddenHostDoc "ts" hiddenHostAddr
      hiddenHostCtx (hiddenElem "DIV" ⟨0, 0, 0, 0⟩) (some hiddenHostShadow) []
      rfl (Or.inl rfl)).1⟩


/-- C9: when `includeShadowDOM` is on, `scan` descends into an element's
attached shadow tree before evaluating the host's own visibility and
size: a host that is itself style-invisible or has a non-positive-size
box still has its shadow subtree scanned, the host contributes no record,
and the output for the host's subtree is exactly the shadow subtree's
records (so shadow records trivially precede any record of the host);
concretely, the shadow button of a `display:none` host is captured while
the host is not. -/
theorem c9_shadow_before_visibility :
    (∀ (cfg : Config) (env : Env) (doc : Doc) (rel : List String) (a : Addr)
       (d : ElemData) (shl : List DNode) (ch : List DNode),
       cfg.includeShadowDOM = true → d.styleError = false →
       (styleHidden d = true ∨ (d.rect.width ≤ 0 || d.rect.height ≤ 0) = true) →
       scanNode cfg env doc rel a (.elem d (some shl) ch) =
         scanList cfg env doc rel (a ++ [Step.intoShadow]) 0 shl) ∧
    ((takeSnapshot exEnv hiddenHostDoc "ts" defaultConfig).keyElements.map
        (fun r => (r.tag, r.text)) = [("button", "Go")]) := by
  constructor
  · intro cfg env doc rel a d shl ch hS hE hbad
    unfold scanNode scanList
    rw [scanTNode.eq_def]
    rcases hbad with h | h
    · simp [hS, hE, h]
    · by_cases hH : styleHidden d <;> simp [hS, hE, h, hH]
  · decide

theorem c9_witness :
    scanNode defaultConfig exEnv hiddenHostDoc defaultRelevant hiddenHostAddr
        (.elem (hiddenElem "DIV" ⟨0, 0, 0, 0⟩) (some hiddenHostShadow) []) =
      scanList defaultConfig exEnv hiddenHostDoc defaultRelevant
        (hiddenHostAddr ++ [Step.intoShadow]) 0 hiddenHostShadow :=
  c9_shadow_before_visibility.1 defaultConfig exEnv hiddenHostDoc defaultRelevant
    hiddenHostAddr (hiddenElem "DIV" ⟨0, 0, 0, 0⟩) hiddenHostShadow []
    rfl rfl (Or.inl rfl)

theorem get?_append_cases {π : Type} (l1 l2 : List π) (i : Nat) (x : π)
    (h : (l1 ++ l2).get? i = some x) :
    (i < l1.length ∧ l1.get? i = some x) ∨
    (l1.length ≤ i ∧ l2.get? (i - l1.length) = some x) := by
  by_cases hi : i < l1.length
  · left
    refine ⟨hi, ?_⟩
    rw [← h, List.get?_append hi]
  · right
    refine ⟨Nat.le_of_not_lt hi, ?_⟩
    rw [← h, List.get?_append_right (Nat.le_of_not_lt hi)]

theorem append_cons_cancel {π : Type} {l : List π} {x y : π} {u v : List π}
    (h : l ++ x :: u = l ++ y :: v) : x = y ∧ u = v := by
  have h2 := List.append_cancel_left h
  injection h2 with h3 h4
  exact ⟨h3, h4⟩

theorem ne_append_cons_self {π : Type} {l t : List π} {x : π} : l ≠ l ++ x :: t := by
  intro h
  have h2 := congrArg List.length h
  simp only [List.length_append, List.length_cons] at h2
  omega

theorem preorder_nil : preorderShadowFirst [] := by
  intro i j a1 r1 a2 r2 s h1 h2 hs
  simp at h1

theorem preorder_singleton (p : Addr × Rec) : preorderShadowFirst [p] := by
  intro i j a1 r1 a2 r2 s h1 h2 hs
  cases i with
  | succ i => simp at h1
  | zero =>
    cases j with
    | succ j => simp at h2
    | zero =>
      simp only [List.get?_cons_zero, Option.some.injEq] at h1 h2
      have h12 := h1.symm.trans h2
      injection h12 with ha hr
      rw [← ha] at hs
      constructor
      · intro k t hst
        subst hst
        exact absurd hs ne_append_cons_self
      · intro t hst
        subst hst
        exact absurd hs ne_append_cons_self

theorem preorder_append {X Y : List (Addr × Rec)}
    (hX : preorderShadowFirst X) (hY : preorderShadowFirst Y)
    (hc1 : ∀ p ∈ X, ∀ q ∈ Y, ∀ u, q.1 ≠ p.1 ++ Step.intoShadow :: u)
    (hc2 : ∀ p ∈ Y, ∀ q ∈ X, ∀ k u, q.1 ≠ p.1 ++ Step.child k :: u) :
    preorderShadowFirst (X ++ Y) := by
  intro i j a1 r1 a2 r2 s h1 h2 hs
  rcases get?_append_cases X Y i (a1, r1) h1 with ⟨hi, hg1⟩ | ⟨hi, hg1⟩ <;>
    rcases get?_append_cases X Y j (a2, r2) h2 with ⟨hj, hg2⟩ | ⟨hj, hg2⟩
  · exact hX i j a1 r1 a2 r2 s hg1 hg2 hs
  · constructor
    · intro k t hst
      omega
    · intro t hst
      exfalso
      refine hc1 (a1, r1) (List.get?_mem hg1) (a2, r2) (List.get?_mem hg2) t ?_
      rw [hs, hst]
  · constructor
    · intro k t hst
      exfalso
      refine hc2 (a1, r1) (List.get?_mem hg1) (a2, r2) (List.get?_mem hg2) k t ?_
      rw [hs, hst]
    · intro t hst
      omega
  · have hrec := hY (i - X.length) (j - X.length) a1 r1 a2 r2 s hg1 hg2 hs
    constructor
    · intro k t hst
      have hlt := hrec.1 k t hst
      omega
    · intro t hst
      have hlt := hrec.2 t hst
      omega


theorem preorder_elem_glue (a : Addr) (SH MAIN : List (Addr × Rec))
    (hSHord : preorderShadowFirst SH)
    (hSHext : ∀ p ∈ SH, ∃ u, p.1 = a ++ Step.intoShadow :: u)
    (hMAINord : preorderShadowFirst MAIN)
    (hMAINext : ∀ p ∈ MAIN, p.1 = a ∨ ∃ k u, p.1 = a ++ Step.child k :: u) :
    preorderShadowFirst (SH ++ MAIN) ∧ ∀ p ∈ SH ++ MAIN, extShape a p := by
  constructor
  · refine preorder_append hSHord hMAINord ?_ ?_
    · intro p hp q hq u hqe
      rcases hSHext p hp with ⟨up, hpe⟩
      rcases hMAINext q hq with hq1 | ⟨k, uq, hq1⟩
      · rw [hq1, hpe] at hqe
        have hlen := congrArg List.length hqe
        simp only [List.length_append, List.length_cons] at hlen
        omega
      · rw [hq1, hpe] at hqe
        simp only [List.append_assoc, List.cons_append] at hqe
        exact Step.noConfusion (append_cons_cancel hqe).1
    · intro p hp q hq k u hqe
      rcases hSHext q hq with ⟨uq, hqe2⟩
      rcases hMAINext p hp with hp1 | ⟨kp, up, hp1⟩
      · rw [hqe2, hp1] at hqe
        exact Step.noConfusion (append_cons_cancel hqe).1
      · rw [hqe2, hp1] at hqe
        simp only [List.append_assoc, List.cons_append] at hqe
        exact Step.noConfusion (append_cons_cancel hqe).1
  · intro p hp
    rcases List.mem_append.mp hp with h | h
    · exact Or.inr (Or.inl (hSHext p h))
    · rcases hMAINext p h with h1 | h1
      · exact Or.inl h1
      · exact Or.inr (Or.inr h1)

theorem preorder_cons_glue (base : Addr) (i : Nat) (HEAD TAIL : List (Addr × Rec))
    (hHord : preorderShadowFirst HEAD)
    (hHext : ∀ p ∈ HEAD, ∃ v, p.1 = base ++ Step.child i :: v)
    (hTord : preorderShadowFirst TAIL)
    (hText : ∀ p ∈ TAIL, extShapeList base (i + 1) p) :
    preorderShadowFirst (HEAD ++ TAIL) ∧ ∀ p ∈ HEAD ++ TAIL, extShapeList base i p := by
  constructor
  · refine preorder_append hHord hTord ?_ ?_
    · intro p hp q hq u hqe
      rcases hHext p hp with ⟨v, hpe⟩
      rcases hText q hq with ⟨k, uq, hk, hq1⟩
      rw [hq1, hpe] at hqe
      simp only [List.append_assoc, List.cons_append] at hqe
      have h2 := append_cons_cancel hqe
      injection h2.1 with hki
      omega
    · intro p hp q hq k u hqe
      rcases hHext q hq with ⟨v, hqe2⟩
      rcases hText p hp with ⟨kp, up, hkp, hp1⟩
      rw [hqe2, hp1] at hqe
      simp only [List.append_assoc, List.cons_append] at hqe
      have h2 := append_cons_cancel hqe
      injection h2.1 with hki
      omega
  · intro p hp
    rcases List.mem_append.mp hp with h | h
    · rcases hHext p h with ⟨v, hpe⟩
      exact ⟨i, v, Nat.le_refl i, hpe⟩
    · rcases hText p h with ⟨k, u, hk, hpe⟩
      exact ⟨k, u, by omega, hpe⟩



theorem scanTNode_elem_eq (cfg : Config) (env : Env) (doc : Doc) (rel : List String)
    (a : Addr) (d : ElemData) (sh : Option (List DNode)) (ch : List DNode) :
    scanTNode cfg env doc rel a (.elem d sh ch) =
      shadowPart cfg env doc rel a sh ++ mainPart cfg env doc rel a d sh ch := by
  rw [scanTNode.eq_def]
  cases sh <;> rfl

theorem scanT_order (cfg : Config) (env : Env) (doc : Doc) (rel : List String) :
    (∀ n : DNode, ∀ a, preorderShadowFirst (scanTNode cfg env doc rel a n) ∧
        ∀ p ∈ scanTNode cfg env doc rel a n, extShape a p) ∧
    (∀ ns : List DNode, ∀ base i, preorderShadowFirst (scanTList cfg env doc rel base i ns) ∧
        ∀ p ∈ scanTList cfg env doc rel base i ns, extShapeList base i p) := by
  apply dnode_mutual_ind
    (P := fun n => ∀ a, preorderShadowFirst (scanTNode cfg env doc rel a n) ∧
        ∀ p ∈ scanTNode cfg env doc rel a n, extShape a p)
    (Q := fun ns => ∀ base i, preorderShadowFirst (scanTList cfg env doc rel base i ns) ∧
        ∀ p ∈ scanTList cfg env doc rel base i ns, extShapeList base i p)
  · intro s a
    constructor
    · exact preorder_nil
    · intro p hp
      rw [scanTNode.eq_def] at hp
      simp at hp
  · intro d sh ch hsh hch a
    have hSHord : preorderShadowFirst (shadowPart cfg env doc rel a sh) := by
      unfold shadowPart
      by_cases hS : cfg.includeShadowDOM = true
      · rw [if_pos hS]
        cases sh with
        | none => exact preorder_nil
        | some shl => exact (hsh shl rfl (a ++ [Step.intoShadow]) 0).1
      · rw [if_neg hS]
        exact preorder_nil
    have hSHext : ∀ p ∈ shadowPart cfg env doc rel a sh,
        ∃ u, p.1 = a ++ Step.intoShadow :: u := by
      intro p hp
      unfold shadowPart at hp
      by_cases hS : cfg.includeShadowDOM = true
      · rw [if_pos hS] at hp
        cases sh with
        | none => simp at hp
        | some shl =>
          rcases (hsh shl rfl (a ++ [Step.intoShadow]) 0).2 p hp with ⟨k, u, -, hpe⟩
          refine ⟨Step.child k :: u, ?_⟩
          rw [hpe]
          simp
      · rw [if_neg hS] at hp
        simp at hp
    have hchord := (hch a 0).1
    have hchext : ∀ p ∈ scanTList cfg env doc rel a 0 ch,
        p.1 = a ∨ ∃ k u, p.1 = a ++ Step.child k :: u := by
      intro p hp
      rcases (hch a 0).2 p hp with ⟨k, u, -, hpe⟩
      exact Or.inr ⟨k, u, hpe⟩
    have hMAIN : preorderShadowFirst (mainPart cfg env doc rel a d sh ch) ∧
        ∀ p ∈ mainPart cfg env doc rel a d sh ch,
          p.1 = a ∨ ∃ k u, p.1 = a ++ Step.child k :: u := by
      unfold mainPart
      by_cases hE : d.styleError = true
      · rw [if_pos hE]
        exact ⟨hchord, hchext⟩
      · rw [if_neg hE]
        by_cases hH : styleHidden d = true
        · rw [if_pos hH]
          exact ⟨preorder_nil, by intro p hp; simp at hp⟩
        · rw [if_neg hH]
          by_cases hZ : (d.rect.width ≤ 0 || d.rect.height ≤ 0) = true
          · rw [if_pos hZ]
            exact ⟨preorder_nil, by intro p hp; simp at hp⟩
          · rw [if_neg hZ]
            by_cases hV : (!cfg.captureOutOfViewport && !inViewport env d.rect) = true
            · rw [if_pos hV]
              exact ⟨preorder_nil, by intro p hp; simp at hp⟩
            · rw [if_neg hV]
              by_cases hR : (rel.contains d.tag ||
                  jsNormText cfg.textTruncateLength (getVisibleText (.elem d sh ch)) ≠ "") = true
              · rw [if_pos hR]
                constructor
                · refine preorder_append (preorder_singleton _) hchord ?_ ?_
                  · intro p hp q hq u hqe
                    simp only [List.mem_singleton] at hp
                    rcases hchext q hq with hq1 | ⟨k, uq, hq1⟩
                    · rw [hp] at hqe
                      rw [hq1] at hqe
                      exact absurd hqe ne_append_cons_self
                    · rw [hp] at hqe
                      rw [hq1] at hqe
                      exact Step.noConfusion (append_cons_cancel hqe).1
                  · intro p hp q hq k u hqe
                    simp only [List.mem_singleton] at hq
                    rcases hchext p hp with hp1 | ⟨kp, up, hp1⟩
                    · rw [hq, hp1] at hqe
                      exact absurd hqe ne_append_cons_self
                    · rw [hq, hp1] at hqe
                      simp only [List.append_assoc, List.cons_append] at hqe
                      exact absurd hqe ne_append_cons_self
                · intro p hp
                  rcases List.mem_append.mp hp with h | h
                  · simp only [List.mem_singleton] at h
                    rw [h]
                    exact Or.inl rfl
                  · exact hchext p h
              · rw [if_neg hR]
                rw [List.nil_append]
                exact ⟨hchord, hchext⟩
    have hglue := preorder_elem_glue a (shadowPart cfg env doc rel a sh)
      (mainPart cfg env doc rel a d sh ch) hSHord hSHext hMAIN.1 hMAIN.2
    rw [scanTNode_elem_eq]
    exact hglue
  · intro base i
    constructor
    · exact preorder_nil
    · intro p hp
      rw [scanTList.eq_def] at hp
      simp at hp
  · intro n ns hn hns base i
    have hHord := (hn (base ++ [Step.child i])).1
    have hHext : ∀ p ∈ scanTNode cfg env doc rel (base ++ [Step.child i]) n,
        ∃ v, p.1 = base ++ Step.child i :: v := by
      intro p hp
      rcases (hn (base ++ [Step.child i])).2 p hp with h | ⟨u, h⟩ | ⟨k, u, h⟩
      · exact ⟨[], by rw [h]⟩
      · exact ⟨Step.intoShadow :: u, by rw [h]; simp⟩
      · exact ⟨Step.child k :: u, by rw [h]; simp⟩
    have hTord := (hns base (i + 1)).1
    have hText := (hns base (i + 1)).2
    have hglue := preorder_cons_glue base i
      (scanTNode cfg env doc rel (base ++ [Step.child i]) n)
      (scanTList cfg env doc rel base (i + 1) ns)
      hHord hHext hTord hText
    constructor
    · exact hglue.1
    · intro p hp
      exact hglue.2 p hp

theorem snapshotPairs_cases (cfg : Config) (env : Env) (doc : Doc) :
    snapshotPairs cfg env doc = [] ∨
    ∃ a0 ctx d sh ch, bodyAddrOf doc = some a0 ∧ curAt doc a0 = some (.curEl ctx d sh ch) ∧
      snapshotPairs cfg env doc = scanTNode cfg env doc (relevantOf cfg) a0 (.elem d sh ch) := by
  unfold snapshotPairs
  rcases hb : bodyAddrOf doc with _ | a0
  · left
    rfl
  · rcases hc : curAt doc a0 with _ | c
    · left
      simp [hc]
    · cases c with
      | curEl ctx d sh ch =>
        right
        exact ⟨a0, ctx, d, sh, ch, rfl, hc, by simp [hc]⟩
      | curDoc ns =>
        left
        simp [hc]
      | curFrag ns =>
        left
        simp [hc]
      | curText s =>
        left
        simp [hc]

/-- C3 (amended): the `elements` sequence is the record projection of the
address-instrumented pair list, which is ordered so that every captured
element's record precedes the records of its captured light-DOM
descendants, but the records of elements inside an element's attached
shadow tree precede the host element's own record, because `scan` visits
`el.shadowRoot` before processing `el` itself. -/
theorem c3_amended_traversal_order :
    (∀ (env : Env) (doc : Doc) (ts : String) (cfg : Config),
      (takeSnapshot env doc ts cfg).keyElements = (snapshotPairs cfg env doc).map Prod.snd) ∧
    (∀ (cfg : Config) (env : Env) (doc : Doc),
      preorderShadowFirst (snapshotPairs cfg env doc)) := by
  refine ⟨keyElements_eq_pairs, ?_⟩
  intro cfg env doc
  rcases snapshotPairs_cases cfg env doc with h | ⟨a0, ctx, d, sh, ch, -, -, h⟩
  · rw [h]
    exact preorder_nil
  · rw [h]
    exact ((scanT_order cfg env doc (relevantOf cfg)).1 (.elem d sh ch) a0).1

theorem c3_order_witness :
    (snapshotPairs defaultConfig exEnv shadowDoc).get? 0 = some (shadowAddr, shadowBtnRec) ∧
    (snapshotPairs defaultConfig exEnv shadowDoc).get? 1 = some (shadowHostAddr, shadowHostRec) ∧
    shadowAddr = shadowHostAddr ++ Step.intoShadow :: [Step.child 0] ∧
    (0 : Nat) < 1 := by
  refine ⟨by decide, by decide, by decide, ?_⟩
  exact (c3_amended_traversal_order.2 defaultConfig exEnv shadowDoc 1 0
    shadowHostAddr shadowHostRec shadowAddr shadowBtnRec
    (Step.intoShadow :: [Step.child 0]) (by decide) (by decide) (by decide)).2
    [Step.child 0] rfl

theorem strDataAppend (a b : String) : (a ++ b).data = a.data ++ b.data := rfl

theorem strMkData (s : String) : String.mk s.data = s := rfl

theorem strEmptyIffData (s : String) : s = "" ↔ s.data = [] := by
  cases s with
  | mk ds => simp [String.ext_iff]

theorem takeWhile_all_eq {π : Type} {p : π → Bool} :
    ∀ {l : List π}, l.all p = true → l.takeWhile p = l
  | [], _ => rfl
  | c :: l, h => by
    simp only [List.all_cons, Bool.and_eq_true] at h
    simp [List.takeWhile_cons, h.1, takeWhile_all_eq h.2]

theorem dropWhile_all_eq {π : Type} {p : π → Bool} :
    ∀ {l : List π}, l.all p = true → l.dropWhile p = []
  | [], _ => rfl
  | c :: l, h => by
    simp only [List.all_cons, Bool.and_eq_true] at h
    simp [List.dropWhile_cons, h.1, dropWhile_all_eq h.2]

theorem takeWhile_append_stop {π : Type} {p : π → Bool} {c : π} (l1 l2 : List π)
    (h1 : l1.all p = true) (hc : p c = false) :
    (l1 ++ c :: l2).takeWhile p = l1 := by
  induction l1 with
  | nil => simp [List.takeWhile_cons, hc]
  | cons x l1 ih =>
    simp only [List.all_cons, Bool.and_eq_true] at h1
    simp [List.takeWhile_cons, h1.1, ih h1.2]

theorem dropWhile_append_stop {π : Type} {p : π → Bool} {c : π} (l1 l2 : List π)
    (h1 : l1.all p = true) (hc : p c = false) :
    (l1 ++ c :: l2).dropWhile p = c :: l2 := by
  induction l1 with
  | nil => simp [List.dropWhile_cons, hc]
  | cons x l1 ih =>
    simp only [List.all_cons, Bool.and_eq_true] at h1
    simp [List.dropWhile_cons, h1.1, ih h1.2]

theorem digCh_toNat {n : Nat} (h : n < 10) : (digCh n).toNat = 48 + n := by
  interval_cases n <;> decide

theorem digCh_isDigit {n : Nat} (h : n < 10) : (digCh n).isDigit = true := by
  interval_cases n <;> decide

theorem natToCharsAux_digits : ∀ (fuel n : Nat), (natToCharsAux fuel n).all Char.isDigit = true
  | 0, _ => rfl
  | fuel + 1, n => by
    rw [natToCharsAux]
    by_cases h : n < 10
    · simp [h, digCh_isDigit h]
    · have h10 : n % 10 < 10 := Nat.mod_lt _ (by decide)
      simp [h, List.all_append, natToCharsAux_digits fuel (n / 10), digCh_isDigit h10]

theorem natToChars_ne_nil (n : Nat) : natToChars n ≠ [] := by
  unfold natToChars natToCharsAux
  by_cases h : n < 10
  · simp [h]
  · simp [h]

theorem charsToNat_aux : ∀ (fuel n : Nat), n < fuel → ∀ acc : Nat,
    (natToCharsAux fuel n).foldl (fun m c => m * 10 + (c.toNat - 48)) acc =
      acc * 10 ^ (natToCharsAux fuel n).length + n
  | 0, n, h, acc => by omega
  | fuel + 1, n, h, acc => by
    rw [natToCharsAux]
    by_cases h10 : n < 10
    · simp only [if_pos h10, List.foldl_cons, List.foldl_nil, List.length_cons,
        List.length_nil, pow_one, digCh_toNat h10]
      omega
    · have hlt : n / 10 < fuel := by
        have := Nat.div_lt_self (by omega : 0 < n) (by decide : 1 < 10)
        omega
      have hmod : n % 10 < 10 := Nat.mod_lt _ (by decide)
      simp only [if_neg h10, List.foldl_append, List.foldl_cons, List.foldl_nil,
        List.length_append, List.length_cons, List.length_nil]
      rw [charsToNat_aux fuel (n / 10) hlt acc, digCh_toNat hmod]
      have hdm := Nat.div_add_mod n 10
      have hpow : 10 ^ ((natToCharsAux fuel (n / 10)).length + (0 + 1)) =
          10 ^ (natToCharsAux fuel (n / 10)).length * 10 := by
        rw [Nat.add_comm 0 1, pow_succ]
      rw [hpow]
      have htn : (48 + n % 10) - 48 = n % 10 := by omega
      rw [htn]
      ring_nf
      omega

theorem charsToNat_natToChars (n : Nat) : charsToNat (natToChars n) = n := by
  unfold charsToNat natToChars
  rw [charsToNat_aux (n + 1) n (Nat.lt_succ_self n) 0]
  simp

theorem splitOnSlash_no_slash :
    ∀ {l : List Char}, l.all (fun c => c ≠ '/') = true → splitOnSlash l = [l]
  | [], _ => rfl
  | c :: l, h => by
    simp only [List.all_cons, Bool.and_eq_true, decide_eq_true_eq] at h
    rw [splitOnSlash]
    rw [if_neg h.1, splitOnSlash_no_slash h.2]

theorem splitOnSlash_append {l1 l2 : List Char} (h : l1.all (fun c => c ≠ '/') = true) :
    splitOnSlash (l1 ++ '/' :: l2) = l1 :: splitOnSlash l2 := by
  induction l1 with
  | nil =>
    rw [List.nil_append, splitOnSlash, if_pos rfl]
  | cons c l1 ih =>
    simp only [List.all_cons, Bool.and_eq_true, decide_eq_true_eq] at h
    rw [List.cons_append, splitOnSlash, if_neg h.1, ih h.2]

theorem joinSlash_split :
    ∀ {segs : List String}, segs ≠ [] →
      (∀ s ∈ segs, s.data ≠ [] ∧ s.data.all (fun c => c ≠ '/') = true) →
      splitOnSlash ((joinSlash segs).data) = segs.map String.data := by
  intro segs
  induction segs with
  | nil => intro h; exact absurd rfl h
  | cons s ss ih =>
    intro _ hall
    cases ss with
    | nil =>
      rw [joinSlash, List.map]
      exact splitOnSlash_no_slash (hall s (by simp)).2
    | cons s2 ss2 =>
      rw [show joinSlash (s :: s2 :: ss2) = s ++ "/" ++ joinSlash (s2 :: ss2) from rfl]
      have hdata : (s ++ "/" ++ joinSlash (s2 :: ss2)).data =
          s.data ++ '/' :: (joinSlash (s2 :: ss2)).data := by
        rw [strDataAppend, strDataAppend]
        simp
      rw [hdata, splitOnSlash_append (hall s (by simp)).2]
      rw [ih (by simp) (fun t ht => hall t (by simp [ht]))]
      rfl

theorem joinSlash_data_ne_nil {s : String} {ss : List String} (h : s.data ≠ []) :
    (joinSlash (s :: ss)).data ≠ [] := by
  cases ss with
  | nil => exact h
  | cons s2 ss2 =>
    rw [show joinSlash (s :: s2 :: ss2) = s ++ "/" ++ joinSlash (s2 :: ss2) from rfl]
    rw [strDataAppend, strDataAppend]
    intro hc
    rw [List.append_assoc] at hc
    rcases List.append_eq_nil.mp hc with ⟨h1, -⟩
    exact h h1

theorem natToChars_digits (n : Nat) : (natToChars n).all Char.isDigit = true :=
  natToCharsAux_digits (n + 1) n

theorem digit_ne_slash {c : Char} (h : c.isDigit = true) : c ≠ '/' := by
  intro he
  subst he
  exact absurd h (by decide)

theorem safeTag_parts {tag : String} (h : safeTag tag = true) :
    (lowerStr tag).data ≠ [] ∧
    (lowerStr tag).data.all (fun c => c ≠ '/') = true ∧
    (lowerStr tag).data.all (fun c => c ≠ '[') = true := by
  simp only [safeTag, Bool.and_eq_true, Bool.not_eq_true'] at h
  obtain ⟨h1, h2⟩ := h
  refine ⟨by simpa using h1, ?_, ?_⟩
  · rw [List.all_eq_true] at h2 ⊢
    intro c hc
    have := h2 c hc
    simp only [Bool.and_eq_true, decide_eq_true_eq] at this
    simp [this.1]
  · rw [List.all_eq_true] at h2 ⊢
    intro c hc
    have := h2 c hc
    simp only [Bool.and_eq_true, decide_eq_true_eq] at this
    simp [this.2]

theorem segOf_data_indexed {tag : String} (sibs : List (Option String)) (i : Nat)
    (hc : ¬ (sibs.filter (fun t => t = some tag)).length = 1) :
    (segOf tag sibs i).data =
      (lowerStr tag).data ++
        '[' :: (natToChars (1 + ((sibs.take i).filter (fun t => t = some tag)).length) ++ [']']) := by
  rw [segOf, if_neg hc]
  rw [strDataAppend, strDataAppend, strDataAppend]
  simp

theorem segOf_safe {tag : String} (sibs : List (Option String)) (i : Nat)
    (h : safeTag tag = true) :
    (segOf tag sibs i).data ≠ [] ∧ (segOf tag sibs i).data.all (fun c => c ≠ '/') = true := by
  obtain ⟨hne, hslash, hbr⟩ := safeTag_parts h
  by_cases hcnt : (sibs.filter (fun t => t = some tag)).length = 1
  · rw [segOf, if_pos hcnt]
    exact ⟨hne, hslash⟩
  · rw [segOf_data_indexed sibs i hcnt]
    constructor
    · intro hx
      rcases List.append_eq_nil.mp hx with ⟨h1, -⟩
      exact hne h1
    · rw [List.all_append]
      refine (Bool.and_eq_true _ _).mpr ⟨hslash, ?_⟩
      rw [List.all_cons]
      refine (Bool.and_eq_true _ _).mpr ⟨by decide, ?_⟩
      rw [List.all_append]
      refine (Bool.and_eq_true _ _).mpr ⟨?_, by decide⟩
      rw [List.all_eq_true]
      intro c hcm
      have hd := natToChars_digits (1 + ((sibs.take i).filter (fun t => t = some tag)).length)
      rw [List.all_eq_true] at hd
      have hdc := hd c hcm
      simp [digit_ne_slash hdc]

theorem parseSeg_segOf {tag : String} (sibs : List (Option String)) (i : Nat)
    (h : safeTag tag = true) :
    parseSeg ((segOf tag sibs i).data) = some (segSpec tag sibs i) := by
  obtain ⟨hne, hslash, hbr⟩ := safeTag_parts h
  by_cases hcnt : (sibs.filter (fun t => t = some tag)).length = 1
  · rw [segOf, if_pos hcnt, segSpec, if_pos hcnt]
    unfold parseSeg
    rw [takeWhile_all_eq hbr, dropWhile_all_eq hbr]
    simp [if_neg hne, strMkData]
  · rw [segOf_data_indexed sibs i hcnt, segSpec, if_neg hcnt]
    unfold parseSeg
    rw [takeWhile_append_stop _ _ hbr (by decide),
        dropWhile_append_stop _ _ hbr (by decide)]
    simp only [if_neg hne]
    have hdig : (natToChars (1 + ((sibs.take i).filter (fun t => t = some tag)).length)).all
        Char.isDigit = true := natToChars_digits _
    rw [takeWhile_append_stop _ _ hdig (by decide),
        dropWhile_append_stop _ _ hdig (by decide)]
    rw [if_neg (natToChars_ne_nil _)]
    rw [if_pos rfl]
    rw [charsToNat_natToChars, strMkData]

theorem mapM_parseSeg_append {l1 l2 : List (List Char)} {r1 r2 : List Seg}
    (h1 : l1.mapM parseSeg = some r1) (h2 : l2.mapM parseSeg = some r2) :
    (l1 ++ l2).mapM parseSeg = some (r1 ++ r2) := by
  rw [List.mapM_append, h1, h2]
  rfl

theorem evalSegs_snoc (doc : Doc) (specs : List Seg) (sp : Seg) :
    evalSegs doc (specs ++ [sp]) = (evalSegs doc specs).flatMap (applySeg doc sp) := by
  unfold evalSegs
  rw [List.foldl_append]
  rfl

theorem tagLowerInj_pair {ns : List DNode} (h : tagLowerInj ns = true)
    {dx : ElemData} {shx chx} {dy : ElemData} {shy chy}
    (hx : DNode.elem dx shx chx ∈ ns) (hy : DNode.elem dy shy chy ∈ ns)
    (hl : lowerStr dx.tag = lowerStr dy.tag) : dx.tag = dy.tag := by
  unfold tagLowerInj at h
  rw [List.all_eq_true] at h
  have h1 := h _ hx
  rw [List.all_eq_true] at h1
  have h2 := h1 _ hy
  simp only [Bool.or_eq_true, Bool.not_eq_true', beq_eq_false_iff_ne, ne_eq, beq_iff_eq] at h2
  rcases h2 with h2 | h2
  · exact absurd hl h2
  · exact h2

theorem childMatches_zero (q : String) :
    ∀ (ns : List DNode) (k : Nat), (ns.filter (lowMatch q)).length = 0 →
      childMatches q ns k = []
  | [], _, _ => rfl
  | .text s :: ns, k, h => by
    rw [childMatches]
    apply childMatches_zero
    simpa [lowMatch] using h
  | .elem d sh ch :: ns, k, h => by
    rw [childMatches]
    by_cases hm : lowerStr d.tag = q
    · exfalso
      simp [List.filter_cons, lowMatch, hm] at h
    · rw [if_neg hm, List.nil_append]
      apply childMatches_zero
      simpa [List.filter_cons, lowMatch, hm] using h

theorem childMatches_rank (q : String) :
    ∀ (ns : List DNode) (k0 i : Nat) (d : ElemData) (sh : Option (List DNode)) (ch : List DNode),
      ns.get? i = some (.elem d sh ch) → lowerStr d.tag = q →
      (childMatches q ns k0).get? ((ns.take i).filter (lowMatch q)).length = some (k0 + i)
  | [], k0, i, d, sh, ch, h, _ => by simp at h
  | n :: ns, k0, i, d, sh, ch, h, hq => by
    cases i with
    | zero =>
      simp only [List.get?_cons_zero, Option.some.injEq] at h
      subst h
      rw [childMatches, if_pos hq]
      simp
    | succ i =>
      simp only [List.get?_cons_succ] at h
      cases n with
      | text s =>
        rw [childMatches]
        rw [List.take_succ_cons, List.filter_cons_of_neg (by simp [lowMatch])]
        have ih := childMatches_rank q ns (k0 + 1) i d sh ch h hq
        rw [ih]
        congr 1
        omega
      | elem d2 sh2 ch2 =>
        by_cases hm : lowerStr d2.tag = q
        · rw [childMatches, if_pos hm, List.take_succ_cons,
            List.filter_cons_of_pos (by simp [lowMatch, hm])]
          simp only [List.length_cons, List.singleton_append, List.get?_cons_succ]
          have ih := childMatches_rank q ns (k0 + 1) i d sh ch h hq
          rw [ih]
          congr 1
          omega
        · rw [childMatches, if_neg hm, List.nil_append, List.take_succ_cons,
            List.filter_cons_of_neg (by simp [lowMatch, hm])]
          have ih := childMatches_rank q ns (k0 + 1) i d sh ch h hq
          rw [ih]
          congr 1
          omega

theorem childMatches_unique (q : String) :
    ∀ (ns : List DNode) (k0 i : Nat) (d : ElemData) (sh : Option (List DNode)) (ch : List DNode),
      (ns.filter (lowMatch q)).length = 1 →
      ns.get? i = some (.elem d sh ch) → lowerStr d.tag = q →
      childMatches q ns k0 = [k0 + i]
  | [], k0, i, d, sh, ch, _, h, _ => by simp at h
  | n :: ns, k0, i, d, sh, ch, hcnt, h, hq => by
    cases i with
    | zero =>
      simp only [List.get?_cons_zero, Option.some.injEq] at h
      subst h
      rw [childMatches, if_pos hq]
      rw [List.filter_cons_of_pos (by simp [lowMatch, hq])] at hcnt
      simp only [List.length_cons, Nat.add_left_cancel_iff, Nat.succ.injEq] at hcnt
      rw [childMatches_zero q ns (k0 + 1) (by omega)]
      simp
    | succ i =>
      simp only [List.get?_cons_succ] at h
      have hmem : DNode.elem d sh ch ∈ ns := by
        exact List.get?_mem h
      have hpos : 0 < (ns.filter (lowMatch q)).length := by
        have hmf : DNode.elem d sh ch ∈ ns.filter (lowMatch q) :=
          List.mem_filter.mpr ⟨hmem, by simp [lowMatch, hq]⟩
        exact List.length_pos.mpr (fun he => by rw [he] at hmf; simp at hmf)
      cases n with
      | text s =>
        rw [childMatches]
        refine childMatches_unique q ns (k0 + 1) i d sh ch ?_ h hq |>.trans ?_
        · rwa [List.filter_cons_of_neg (by simp [lowMatch])] at hcnt
        · congr 1
          omega
      | elem d2 sh2 ch2 =>
        by_cases hm : lowerStr d2.tag = q
        · exfalso
          rw [List.filter_cons_of_pos (by simp [lowMatch, hm])] at hcnt
          simp only [List.length_cons] at hcnt
          omega
        · rw [childMatches, if_neg hm, List.nil_append]
          refine childMatches_unique q ns (k0 + 1) i d sh ch ?_ h hq |>.trans ?_
          · rwa [List.filter_cons_of_neg (by simp [lowMatch, hm])] at hcnt
          · congr 1
            omega

theorem count_bridge {ns : List DNode} {d : ElemData} {sh : Option (List DNode)}
    {ch : List DNode} (hinj : tagLowerInj ns = true) (hmem : DNode.elem d sh ch ∈ ns)
    (l : List DNode) (hsub : ∀ x ∈ l, x ∈ ns) :
    (l.filter (lowMatch (lowerStr d.tag))).length =
      ((sibInfos l).filter (fun t => t = some d.tag)).length := by
  unfold sibInfos
  rw [List.filter_map]
  rw [List.length_map]
  congr 1
  apply List.filter_congr
  intro x hx
  cases x with
  | text s => simp [lowMatch, Function.comp]
  | elem dx shx chx =>
    simp only [lowMatch, Function.comp]
    by_cases he : dx.tag = d.tag
    · simp [he]
    · have hne : ¬ lowerStr dx.tag = lowerStr d.tag :=
        fun hl => he (tagLowerInj_pair hinj (hsub _ hx) hmem hl)
      simp [he, hne]

theorem sibInfos_take (l : List DNode) (i : Nat) :
    sibInfos (l.take i) = (sibInfos l).take i := by
  unfold sibInfos
  rw [List.map_take]

theorem childrenAtLight_of_cur {doc : Doc} {p : Addr} {c : Cur}
    (hcur : curAt doc p = some c) : childrenAtLight doc p = curChildren c := by
  unfold childrenAtLight
  rw [hcur]

theorem applySeg_step (doc : Doc) (p : Addr) (c : Cur) (i : Nat)
    (d : ElemData) (sh : Option (List DNode)) (ch : List DNode)
    (hcur : curAt doc p = some c)
    (hget : (curChildren c).get? i = some (.elem d sh ch))
    (hinj : tagLowerInj (curChildren c) = true) :
    applySeg doc (segSpec d.tag (sibInfos (curChildren c)) i) p = [p ++ [Step.child i]] := by
  have hmem : DNode.elem d sh ch ∈ curChildren c := List.get?_mem hget
  have hb1 := count_bridge hinj hmem (curChildren c) (fun x hx => hx)
  have hb2 := count_bridge hinj hmem ((curChildren c).take i)
    (fun x hx => List.take_subset _ _ hx)
  by_cases hcnt : ((sibInfos (curChildren c)).filter (fun t => t = some d.tag)).length = 1
  · have hspec : segSpec d.tag (sibInfos (curChildren c)) i = ⟨lowerStr d.tag, none⟩ := by
      unfold segSpec
      rw [if_pos hcnt]
    rw [hspec]
    unfold applySeg
    rw [childrenAtLight_of_cur hcur]
    show ((childMatches (lowerStr d.tag) (curChildren c) 0).map
      (fun k => p ++ [Step.child k])) = [p ++ [Step.child i]]
    rw [childMatches_unique (lowerStr d.tag) (curChildren c) 0 i d sh ch
      (by rw [hb1]; exact hcnt) hget rfl]
    simp
  · have hspec : segSpec d.tag (sibInfos (curChildren c)) i =
        ⟨lowerStr d.tag,
         some ((((curChildren c).take i).filter (lowMatch (lowerStr d.tag))).length + 1)⟩ := by
      unfold segSpec
      rw [if_neg hcnt, ← sibInfos_take]
      rw [← hb2, Nat.add_comm]
    rw [hspec]
    unfold applySeg
    rw [childrenAtLight_of_cur hcur]
    show (((childMatches (lowerStr d.tag) (curChildren c) 0).map
        (fun k => p ++ [Step.child k])).get?
      (((curChildren c).take i).filter (lowMatch (lowerStr d.tag))).length).toList =
      [p ++ [Step.child i]]
    rw [List.get?_map]
    rw [childMatches_rank (lowerStr d.tag) (curChildren c) 0 i d sh ch hget rfl]
    simp

theorem findIdx?_found {π : Type} (p : π → Bool) :
    ∀ (ns : List π) (s j : Nat), List.findIdx? p ns s = some j →
      ∃ i x, ns.get? i = some x ∧ p x = true ∧ j = s + i := by
  intro ns
  induction ns with
  | nil => intro s j h; simp [List.findIdx?_nil] at h
  | cons n ns ih =>
    intro s j h
    rw [List.findIdx?_cons] at h
    by_cases hp : p n
    · rw [if_pos hp] at h
      injection h with h
      exact ⟨0, n, rfl, hp, by omega⟩
    · rw [if_neg hp] at h
      rcases ih (s + 1) j h with ⟨i, x, hx, hpx, hj⟩
      exact ⟨i + 1, x, by simpa using hx, hpx, by omega⟩

theorem childMatches_head_findIdx (q : String) (tag : String) :
    ∀ (ns : List DNode) (k : Nat),
      (∀ x ∈ ns, lowMatch q x = isElemTag tag x) →
      (childMatches q ns k).head? = (ns.findIdx? (isElemTag tag)).map (fun j => k + j) := by
  intro ns
  induction ns with
  | nil => intro k h; rfl
  | cons n ns ih =>
    intro k h
    have hn := h n (by simp)
    rw [List.findIdx?_cons]
    cases n with
    | text s =>
      rw [childMatches]
      rw [if_neg (by simp [isElemTag])]
      rw [ih (k + 1) (fun x hx => h x (by simp [hx]))]
      cases hf : ns.findIdx? (isElemTag tag) with
      | none => simp [hf]
      | some j =>
        rw [List.findIdx?_succ, hf]
        simp only [Option.map_some', Option.some.injEq]
        omega
    | elem d2 sh2 ch2 =>
      by_cases hm : lowerStr d2.tag = q
      · rw [childMatches, if_pos hm]
        have hit : isElemTag tag (DNode.elem d2 sh2 ch2) = true := by
          rw [← hn]
          simp [lowMatch, hm]
        rw [if_pos hit]
        simp
      · rw [childMatches, if_neg hm, List.nil_append]
        have hif : isElemTag tag (DNode.elem d2 sh2 ch2) = false := by
          rw [← hn]
          simp [lowMatch, hm]
        rw [if_neg (by rw [hif]; simp)]
        rw [ih (k + 1) (fun x hx => h x (by simp [hx]))]
        cases hf : ns.findIdx? (isElemTag tag) with
        | none => simp [hf]
        | some j =>
          rw [List.findIdx?_succ, hf]
          simp only [Option.map_some', Option.some.injEq]
          omega

theorem tagLowerInj_singleton (d : ElemData) (sh : Option (List DNode)) (ch : List DNode) :
    tagLowerInj [DNode.elem d sh ch] = true := by
  simp [tagLowerInj]

theorem wfList_mem : ∀ {ns : List DNode}, wfList ns = true → ∀ {n}, n ∈ ns → wfNode n = true := by
  intro ns
  induction ns with
  | nil => intro _ n hn; simp at hn
  | cons m ms ih =>
    intro h n hn
    rw [wfList, Bool.and_eq_true] at h
    rcases List.mem_cons.mp hn with he | hm
    · rw [he]; exact h.1
    · exact ih h.2 hm

theorem get?_singleton {π : Type} {x y : π} {i : Nat} (h : ([x] : List π).get? i = some y) :
    i = 0 ∧ y = x := by
  cases i with
  | zero => simp at h; exact ⟨rfl, h.symm⟩
  | succ i => simp at h

theorem parseXPath_slash (t : String) (h : ¬ t.data = []) :
    parseXPath ("/" ++ t) = (splitOnSlash t.data).mapM parseSeg := by
  show (if ('/' : Char) = '/' then
      if t.data = [] then some [] else (splitOnSlash t.data).mapM parseSeg
    else none) = (splitOnSlash t.data).mapM parseSeg
  rw [if_pos rfl, if_neg h]

theorem goodFind {doc : Doc} {segs : List String} {target : Addr}
    (hgood : goodSegs doc segs target) :
    findElementByXPath doc ("/" ++ joinSlash segs) = some target := by
  obtain ⟨hne, hparts, specs, hparse, heval⟩ := hgood
  cases segs with
  | nil => exact absurd rfl hne
  | cons s ss =>
    have hd1 : s.data ≠ [] := (hparts s (by simp)).1
    have hjne : ¬ (joinSlash (s :: ss)).data = [] := joinSlash_data_ne_nil hd1
    unfold findElementByXPath
    rw [parseXPath_slash _ hjne]
    rw [joinSlash_split (by simp) hparts]
    rw [hparse]
    show (evalSegs doc specs).head? = some target
    rw [heval]
    rfl

theorem mapM_parseSeg_singleton {x : List Char} {y : Seg} (h : parseSeg x = some y) :
    ([x] : List (List Char)).mapM parseSeg = some [y] := by
  rw [List.mapM_cons, h, List.mapM_nil]
  rfl

theorem evalSegs_singleton (doc : Doc) (sp : Seg) :
    evalSegs doc [sp] = applySeg doc sp [] := by
  unfold evalSegs
  rw [List.foldl_cons, List.foldl_nil]
  simp

theorem evalSegs_target_snoc {doc : Doc} {specs : List Seg} {sp : Seg} {b : Addr}
    (h : evalSegs doc specs = [b]) :
    evalSegs doc (specs ++ [sp]) = applySeg doc sp b := by
  rw [evalSegs_snoc, h]
  simp

theorem wfDoc_shape {doc : Doc} (hwf : WfDoc doc = true) :
    ∃ dH shH chH, doc.children = [DNode.elem dH shH chH] ∧
      dH.tag = "HTML" ∧ safeTag dH.tag = true ∧ tagLowerInj chH = true ∧
      wfList chH = true ∧
      chH.all (fun x => lowMatch "body" x == isElemTag "BODY" x) = true := by
  unfold WfDoc at hwf
  cases hch : doc.children with
  | nil => rw [hch] at hwf; simp at hwf
  | cons n ns =>
    cases ns with
    | cons n2 ns2 =>
      rw [hch] at hwf
      cases n <;> simp at hwf
    | nil =>
      cases n with
      | text s => rw [hch] at hwf; simp at hwf
      | elem dH shH chH =>
        rw [hch] at hwf
        simp only [Bool.and_eq_true, beq_iff_eq] at hwf
        exact ⟨dH, shH, chH, rfl, hwf.1.1.1.1, hwf.1.1.1.2, hwf.1.1.2, hwf.1.2, hwf.2⟩

theorem round_invariant (doc : Doc) (hwf : WfDoc doc = true) :
    ∀ (a : Addr), a.all isChildStep = true →
      ∀ c, curAt doc a = some c →
        (a = [] ∧ c = .curDoc doc.children) ∨
        (∃ ctx d sh ch segs, c = .curEl ctx d sh ch ∧
          safeTag d.tag = true ∧ tagLowerInj ch = true ∧ wfList ch = true ∧
          xwalk d.tag ctx = some segs ∧ goodSegs doc segs a) ∨
        (∃ t, c = .curText t) := by
  intro a
  induction a using List.reverseRecOn with
  | nil =>
    intro _ c hc
    have h0 : some (Cur.curDoc doc.children) = some c := hc
    injection h0 with h0
    exact Or.inl ⟨rfl, h0.symm⟩
  | append_singleton b s ih =>
    intro hall c hc
    rw [List.all_append, Bool.and_eq_true] at hall
    have hball := hall.1
    have hs : isChildStep s = true := by simpa using hall.2
    cases s with
    | intoShadow => exact absurd hs (by decide)
    | child i =>
      rw [curAt_snoc] at hc
      cases hcb : curAt doc b with
      | none => rw [hcb] at hc; simp at hc
      | some cb =>
        rw [hcb, Option.some_bind] at hc
        rcases ih hball cb hcb with ⟨hbnil, hcd⟩ |
            ⟨ctxp, dp, shp, chp, segsP, hceq, hsafe, hinj, hwfl, hxw, hgood⟩ | ⟨t, hct⟩
        · subst hbnil
          rw [hcd] at hc
          obtain ⟨dH, shH, chH, hch, hHTML, hsafeH, hinjH, hwflH, hbodyH⟩ := wfDoc_shape hwf
          simp only [stepCur, curChildren, childCtxOf] at hc
          rw [hch] at hc
          cases i with
          | zero =>
            simp only [List.get?_cons_zero, Option.some.injEq] at hc
            subst hc
            refine Or.inr (Or.inl ⟨_, dH, shH, chH,
              [segOf dH.tag (sibInfos [DNode.elem dH shH chH]) 0], rfl,
              hsafeH, hinjH, hwflH, rfl, ?_⟩)
            refine ⟨by simp, ?_, [segSpec dH.tag (sibInfos [DNode.elem dH shH chH]) 0], ?_, ?_⟩
            · intro t ht
              rw [List.mem_singleton] at ht
              subst ht
              exact segOf_safe _ _ hsafeH
            · exact mapM_parseSeg_singleton (parseSeg_segOf _ _ hsafeH)
            · rw [evalSegs_singleton]
              have hcur0 : curAt doc [] = some (Cur.curDoc [DNode.elem dH shH chH]) := by
                rw [← hch]
                rfl
              have h5 := applySeg_step doc [] (Cur.curDoc [DNode.elem dH shH chH]) 0
                dH shH chH hcur0 rfl (tagLowerInj_singleton dH shH chH)
              simpa [curChildren] using h5
          | succ i =>
            simp at hc
        · subst hceq
          simp only [stepCur, curChildren, childCtxOf] at hc
          cases hg : chp.get? i with
          | none => rw [hg] at hc; simp at hc
          | some n =>
            rw [hg] at hc
            cases n with
            | text t =>
              simp only [Option.some.injEq] at hc
              subst hc
              exact Or.inr (Or.inr ⟨t, rfl⟩)
            | elem d sh ch =>
              simp only [Option.some.injEq] at hc
              subst hc
              have hnmem : DNode.elem d sh ch ∈ chp := List.get?_mem hg
              have hwfn := wfList_mem hwfl hnmem
              rw [wfNode, Bool.and_eq_true, Bool.and_eq_true] at hwfn
              obtain ⟨⟨hsafe2, hinj2⟩, hwfl2⟩ := hwfn
              refine Or.inr (Or.inl ⟨_, d, sh, ch,
                segsP ++ [segOf d.tag (sibInfos chp) i], rfl,
                hsafe2, hinj2, hwfl2, ?_, ?_⟩)
              · rw [xwalk, hxw]
                rfl
              · obtain ⟨hPne, hPparts, specsP, hPparse, hPeval⟩ := hgood
                refine ⟨by simp, ?_, specsP ++ [segSpec d.tag (sibInfos chp) i], ?_, ?_⟩
                · intro t ht
                  rcases List.mem_append.mp ht with h1 | h1
                  · exact hPparts t h1
                  · rw [List.mem_singleton] at h1
                    subst h1
                    exact segOf_safe _ _ hsafe2
                · rw [List.map_append]
                  exact mapM_parseSeg_append hPparse
                    (mapM_parseSeg_singleton (parseSeg_segOf _ _ hsafe2))
                · rw [evalSegs_target_snoc hPeval]
                  exact applySeg_step doc b (Cur.curEl ctxp dp shp chp) i d sh ch hcb hg hinj
        · rw [hct] at hc
          simp [stepCur, curChildren] at hc

theorem head?_map_list {π ρ : Type} (f : π → ρ) (l : List π) :
    (l.map f).head? = l.head?.map f := by
  cases l <;> rfl

/-- C1: `findElementByXPath(getXPath(el))` returns `el` itself for any
element in the document.  Corrected form: the round trip holds for every
element reachable through light-DOM `childNodes` links in a well-formed
document (a single `HTML` document element, tag names free of locator
metacharacters, sibling tag names injective under lowercasing, and the
document element's children reading as `body` to a name test exactly when
their `tagName` is `BODY`); it fails for elements inside shadow trees,
where `getXPath` emits a shadow-root-relative path that `document.evaluate`
cannot resolve against the document (see the separate counterexample). -/
theorem c1_roundtrip_light (doc : Doc) (a : Addr)
    (hwf : WfDoc doc = true) (hsteps : a.all isChildStep = true)
    {ctx : UpCtx} {d : ElemData} {sh : Option (List DNode)} {ch : List DNode}
    (hcur : curAt doc a = some (.curEl ctx d sh ch)) :
    ∃ s, getXPathAt doc a = some s ∧ findElementByXPath doc s = some a := by
  obtain ⟨dH, shH, chH, hch, hHTML, hsafeH, hinjH, hwflH, hbodyH⟩ := wfDoc_shape hwf
  have hanil : ¬ a = [] := by
    intro he
    subst he
    have h0 : some (Cur.curDoc doc.children) = some (Cur.curEl ctx d sh ch) := hcur
    simp at h0
  have hcur1 : curAt doc [Step.child 0] =
      some (Cur.curEl (.inDoc (sibInfos doc.children) 0) dH shH chH) := by
    rw [show ([Step.child 0] : Addr) = [] ++ [Step.child 0] from rfl]
    rw [curAt_snoc]
    rw [show curAt doc [] = some (Cur.curDoc doc.children) from rfl, Option.some_bind]
    simp only [stepCur, curChildren, childCtxOf]
    rw [hch]
    rfl
  have hres1 : evalSegs doc [Seg.mk "html" none] = [[Step.child 0]] := by
    rw [evalSegs_singleton]
    show (childMatches "html" (childrenAtLight doc []) 0).map
      (fun k => ([] : Addr) ++ [Step.child k]) = [[Step.child 0]]
    rw [show childrenAtLight doc [] = doc.children from rfl, hch]
    rw [show childMatches "html" [DNode.elem dH shH chH] 0 =
      (if lowerStr dH.tag = "html" then [0] else []) ++ [] from rfl]
    rw [if_pos (by rw [hHTML]; rfl)]
    rfl
  by_cases hde : docElemAddr doc = some a
  · have hde0 : docElemAddr doc = some [Step.child 0] := by
      unfold docElemAddr
      rw [hch]
      rfl
    have ha : a = [Step.child 0] := by
      rw [hde0] at hde
      injection hde with hde2
      exact hde2.symm
    subst ha
    refine ⟨"/html", ?_, ?_⟩
    · unfold getXPathAt gxInputOf
      rw [if_neg hanil, if_pos hde]
      rfl
    · unfold findElementByXPath
      rw [show parseXPath "/html" = some [Seg.mk "html" none] from rfl]
      rw [Option.some_bind, hres1]
      rfl
  · by_cases hba : bodyAddrOf doc = some a
    · have hba0 : bodyAddrOf doc =
          (chH.findIdx? (isElemTag "BODY")).map
            (fun j => [Step.child 0, Step.child j]) := by
        unfold bodyAddrOf
        rw [hch]
        rfl
      rw [hba0] at hba
      rcases Option.map_eq_some'.mp hba with ⟨j, hj, haj⟩
      have hpoint : ∀ x ∈ chH, lowMatch "body" x = isElemTag "BODY" x := by
        intro x hx
        rw [List.all_eq_true] at hbodyH
        exact beq_iff_eq.mp (hbodyH x hx)
      refine ⟨"/html/body", ?_, ?_⟩
      · unfold getXPathAt gxInputOf
        rw [if_neg hanil, if_neg hde, if_pos (by rw [hba0, hj]; simpa using haj)]
        rfl
      · unfold findElementByXPath
        rw [show parseXPath "/html/body" =
          some [Seg.mk "html" none, Seg.mk "body" none] from rfl]
        rw [Option.some_bind]
        have h2 : evalSegs doc [Seg.mk "html" none, Seg.mk "body" none] =
            applySeg doc (Seg.mk "body" none) [Step.child 0] := by
          rw [show ([Seg.mk "html" none, Seg.mk "body" none] : List Seg) =
            [Seg.mk "html" none] ++ [Seg.mk "body" none] from rfl]
          exact evalSegs_target_snoc hres1
        rw [h2]
        have hcac : childrenAtLight doc [Step.child 0] = chH := by
          unfold childrenAtLight
          rw [hcur1]
          rfl
        show ((childMatches "body" (childrenAtLight doc [Step.child 0]) 0).map
          (fun k => [Step.child 0] ++ [Step.child k])).head? = some a
        rw [hcac, head?_map_list, childMatches_head_findIdx "body" "BODY" chH 0 hpoint, hj]
        rw [← haj]
        simp
    · have hginp : gxInputOf doc a = .node d.tag ctx := by
        unfold gxInputOf
        rw [if_neg hanil, if_neg hde, if_neg hba, hcur]
      rcases round_invariant doc hwf a hsteps _ hcur with ⟨hnil, _⟩ |
          ⟨ctx2, d2, sh2, ch2, segs, heq, _, _, _, hxw, hgood⟩ | ⟨t, hteq⟩
      · exact absurd hnil hanil
      · injection heq with h1 h2 h3 h4
        subst h1
        subst h2
        refine ⟨"/" ++ joinSlash segs, ?_, goodFind hgood⟩
        unfold getXPathAt
        rw [hginp]
        show (xwalk d.tag ctx).map (fun segs => "/" ++ joinSlash segs) = _
        rw [hxw]
        rfl
      · simp at hteq

theorem c1_witness :
    WfDoc exDoc = true ∧
    ∃ s, getXPathAt exDoc
        [Step.child 0, Step.child 0, Step.child 1, Step.child 0] = some s ∧
      findElementByXPath exDoc s =
        some [Step.child 0, Step.child 0, Step.child 1, Step.child 0] :=
  ⟨by decide, c1_roundtrip_light exDoc _ (by decide) (by decide) rfl⟩

end BrowserMagic
